import Mathlib

/-!
Verification of the sdrpp_radiosonde decoding core against its
natural-language specification.

The development shallowly embeds the two subsystems of the repository:
the bit-synchronizing framer (`src/decode/framer.cpp`) and the RS41
frame decoder (`src/decode/rs41/decoder.cpp`).  Machine integers are
modelled as `Nat` with explicit masking where C overflow semantics
matter; byte buffers are `List Nat`; the stream-plumbing host machinery
(queues, flush/swap) is outside the model, exactly as the spec places
it outside the core.

Helper routines declared in the repository but defined in headers that
are not part of the source tree (`utils.h`: `bitpack`, `bitcpy`,
`crc16`; the constants and struct layouts of `rs41.h`) are modelled
from the spec; each such definition carries a doc comment starting with
`Modelled from the spec:`.
-/

namespace Radiosonde

set_option maxRecDepth 1000000

/-- Mask of the low 64 bits, the width of a C `uint64_t`. -/
def u64Mask : Nat := 2 ^ 64 - 1

/-- Fuel-driven population count.  Each iteration of the source loop
`for (corr = 0; v; corr++) v &= v-1;` clears the lowest set bit, so 64
units of fuel compute the exact bit count of any value below `2^64`. -/
def popCountFuel : Nat → Nat → Nat
  | 0, _ => 0
  | f + 1, v => if v = 0 then 0 else 1 + popCountFuel f (v &&& (v - 1))

/-- `inverseCorrelateU64` (framer.cpp, lines 196-208): the number of
bits that differ between two `uint64_t` values, computed as the
population count of their xor. -/
def inverseCorrelateU64 (x y : Nat) : Nat :=
  popCountFuel 64 (x ^^^ y)

/-- The most-significant-first bit `j` of a byte: `(b >> (7-j)) & 0x1`. -/
def byteBit (b j : Nat) : Nat :=
  (b >>> (7 - j)) &&& 1

/-- State threaded through the inner correlation search: the sliding
window, the best distance so far, its bit offset, and the inversion
flag (`none` models the C caller's never-written `inverted` local). -/
structure CorrState where
  window : Nat
  bestCorr : Nat
  bestOffset : Nat
  inverted : Option Bool
  deriving Repr, DecidableEq

/-- One `j` step of the inner loop of `dsp::Framer::correlateU64`
(framer.cpp, lines 166-186): compare the current window against the
sync word and against its bitwise inverse, keep the smaller distance
(strict improvement only, so ties keep the earliest offset), then
shift the next bit of `tmp` into the window. -/
def corrStep (syncWord syncMask : Nat) (syncLen : Nat) (pos : Nat)
    (tmp : Nat) (j : Nat) (s : CorrState) : CorrState :=
  let corr := inverseCorrelateU64 syncWord (s.window &&& syncMask)
  let s1 :=
    if corr < s.bestCorr then
      { s with bestCorr := corr, bestOffset := pos, inverted := some false }
    else s
  let corr2 := syncLen * 8 - corr
  let s2 :=
    if corr2 < s1.bestCorr then
      { s1 with bestCorr := corr2, bestOffset := pos, inverted := some true }
    else s1
  { s2 with window := ((s2.window <<< 1) ||| byteBit tmp j) &&& u64Mask }

/-- Process one byte `tmp` of the outer loop (framer.cpp, lines
162-188): run the eight inner-bit steps. -/
def corrByte (syncWord syncMask syncLen : Nat) (i : Nat) (tmp : Nat)
    (s : CorrState) : CorrState :=
  (List.range 8).foldl
    (fun st j => corrStep syncWord syncMask syncLen (i * 8 + j) tmp j st) s

/-- `dsp::Framer::correlateU64` (framer.cpp, lines 139-191), faithful
to the source including the sync-mask computation
`(_syncLen < 8) ? (1ULL << (8*_syncLen)) : ~0ULL` and the early return
when the distance at offset 0 is zero.  Returns the winning bit offset
together with the final value of the caller's `inverted` flag (which
the source leaves unwritten unless some comparison improves on the
offset-0 distance). -/
def correlateU64 (syncWordIn : Nat) (syncLen : Nat) (frame : List Nat)
    (len : Nat) : Nat × Option Bool :=
  let syncMask := if syncLen < 8 then (1 <<< (8 * syncLen)) else u64Mask
  let syncWord := syncWordIn &&& syncMask
  let window0 := (List.range syncLen).foldl
    (fun w i => ((w <<< 8) ||| frame.getD i 0) &&& u64Mask) 0
  let bestCorr0 := inverseCorrelateU64 syncWord (window0 &&& syncMask)
  if bestCorr0 = 0 then (0, none)
  else
    let init : CorrState :=
      { window := window0, bestCorr := bestCorr0, bestOffset := 0,
        inverted := none }
    let final := (List.range (len - syncLen)).foldl
      (fun st i =>
        corrByte syncWord syncMask syncLen i (frame.getD (syncLen + i) 0) st)
      init
    (final.bestOffset, final.inverted)

/-- Bit `p` of a byte buffer, most-significant bit of each byte first:
the addressing used throughout the framer. -/
def bitAt (frame : List Nat) (p : Nat) : Nat :=
  byteBit (frame.getD (p / 8) 0) (p % 8)

/-- The `8*syncLen`-bit window starting at bit offset `k` of a buffer. -/
def windowAt (frame : List Nat) (k total : Nat) : Nat :=
  (List.range total).foldl (fun w j => (w <<< 1) ||| bitAt frame (k + j)) 0

/-- Search loop of the correlation algorithm as the specification
describes it (spec §4.1 step 2): at each candidate offset compute the
Hamming distance of the masked window to the masked pattern and the
distance to the inverted pattern as `totalBits - distance`, keep the
strict minimum (ties keep the earliest offset), and stop at once on an
exact match.  This definition follows the spec's words and exists only
to be compared with the source function `correlateU64`. -/
def describedSearch (sw mask total : Nat) (frame : List Nat) :
    List Nat → Nat × Nat × Bool → Nat × Bool
  | [], (bo, _, binv) => (bo, binv)
  | k :: ks, (bo, bc, binv) =>
    let d := popCountFuel 64 ((windowAt frame k total ^^^ sw) &&& mask)
    if d = 0 then (k, false)
    else
      let s1 := if d < bc then (k, d, false) else (bo, bc, binv)
      let dInv := total - d
      let s2 := if dInv < s1.2.1 then (k, dInv, true) else s1
      describedSearch sw mask total frame ks s2

/-- The whole correlation as the specification describes it: the
comparison is taken over exactly the low `8*syncLen` bits of pattern
and window, and every bit offset `k` with `k < 8*(len - syncLen)` is a
candidate.  Spec-words definition for comparison with `correlateU64`. -/
def correlateDescribed (syncWord syncLen : Nat) (frame : List Nat)
    (len : Nat) : Nat × Bool :=
  let total := 8 * syncLen
  let mask := (1 <<< total) - 1
  describedSearch (syncWord &&& mask) mask total frame
    (List.range (8 * (len - syncLen))) (0, total + 1, false)

/-- Concrete 10-byte buffer (the spec's `frameLen = 10`) with the sync
pattern `0xAAAA` injected at bit offset 37; bit 36 is set so that no
earlier offset gives an exact plain or inverted match. -/
def syncBufC1 : List Nat := [0x00, 0x00, 0x00, 0x00, 0x0D, 0x55, 0x50, 0x00, 0x00, 0x00]

/-- Concrete 10-byte buffer with the sync pattern `0xAAAA` injected at
bit offset 29; bit 28 is set so that no earlier offset gives an exact
plain or inverted match. -/
def syncBufC2 : List Nat := [0x00, 0x00, 0x00, 0x0D, 0x55, 0x50, 0x00, 0x00, 0x00, 0x00]

/-- C1: the spec requires that correlation on a frame with the sync
pattern `0xAAAA` (`syncLen = 2`) injected at bit 37 return offset 37
with the inversion flag clear.  On the source code it does not: the
sync mask is computed as `1ULL << (8*syncLen)` instead of
`(1ULL << (8*syncLen)) - 1`, so for `syncLen < 8` both the masked
pattern and the masked initial window are the single (always zero) bit
`8*syncLen`; the initial distance is therefore 0 and `correlateU64`
returns offset 0 immediately, leaving `inverted` unwritten, even
though the pattern demonstrably sits at bit 37 of this buffer. -/
theorem correlateU64_returns_zero_on_bit37_pattern :
    correlateU64 0xAAAA 2 syncBufC1 10 = (0, none) ∧
    windowAt syncBufC1 37 16 = 0xAAAA := by
  decide

/-- C2: the source search does not follow the specified algorithm.
The specification demands every comparison be taken over exactly the
low `8*syncLen` bits of pattern and window; on this buffer, which
carries the pattern `0xAAAA` at bit offset 29, the described algorithm
(`correlateDescribed`) returns offset 29, while the source
`correlateU64` masks with `1ULL << (8*syncLen)` (a single bit) and
returns offset 0. -/
theorem correlateU64_differs_from_described_search :
    correlateU64 0xAAAA 2 syncBufC2 10 = (0, none) ∧
    correlateDescribed 0xAAAA 2 syncBufC2 10 = (29, false) ∧
    windowAt syncBufC2 29 16 = 0xAAAA := by
  decide

/-! ## RS41 frame decoder (src/decode/rs41/decoder.cpp)

The numeric constants and struct layouts below come from `rs41.h`,
which is not part of the provided sources; they are modelled from the
spec's frame schema (§6: one flag byte, an `L`-byte data region —
`L+X` when extended — and a trailing parity region used only by FEC)
instantiated with the RS41 deployment constants. -/

/-- Modelled from the spec: `RS41_DATA_LEN`, the data-region length of
a standard (non-extended) frame, from the missing `rs41.h`. -/
def RS41_DATA_LEN : Nat := 263

/-- Modelled from the spec: `RS41_XDATA_LEN`, the extra data length of
an extended frame, from the missing `rs41.h`. -/
def RS41_XDATA_LEN : Nat := 198

/-- Modelled from the spec: `RS41_REEDSOLOMON_K`, the data length of a
Reed-Solomon codeword, from the missing `rs41.h`. -/
def RS41_REEDSOLOMON_K : Nat := 231

/-- Modelled from the spec: `RS41_REEDSOLOMON_N`, the codeword length,
from the missing `rs41.h`. -/
def RS41_REEDSOLOMON_N : Nat := 255

/-- Modelled from the spec: `RS41_REEDSOLOMON_T`, the number of parity
symbols appended per codeword in the source's usage, from the missing
`rs41.h`. -/
def RS41_REEDSOLOMON_T : Nat := 24

/-- Modelled from the spec: `RS41_REEDSOLOMON_INTERLEAVING`, the
interleaving depth `I`, from the missing `rs41.h`. -/
def RS41_REEDSOLOMON_INTERLEAVING : Nat := 2

/-- Modelled from the spec: `RS41_FLAG_EXTENDED`, the nonzero flag
byte marking the extended frame variant, from the missing `rs41.h`. -/
def RS41_FLAG_EXTENDED : Nat := 0xF0

/-- Modelled from the spec: `RS41_CALIB_FRAGSIZE`, bytes per
calibration fragment, from the missing `rs41.h`. -/
def RS41_CALIB_FRAGSIZE : Nat := 16

/-- Modelled from the spec: `RS41_CALIB_FRAGCOUNT`, the declared
number of calibration fragments, from the missing `rs41.h`. -/
def RS41_CALIB_FRAGCOUNT : Nat := 51

/-- Modelled from the spec: `RS41_SFTYPE_INFO`, the STATUS sub-record
type tag, from the missing `rs41.h`. -/
def RS41_SFTYPE_INFO : Nat := 0x79

/-- Modelled from the spec: `RS41_SFTYPE_GPSPOS`, the GPS-position
sub-record type tag, from the missing `rs41.h`. -/
def RS41_SFTYPE_GPSPOS : Nat := 0x7B

/-- Modelled from the spec: `CCITT_FALSE_POLY`, the CRC-16 polynomial
`0x1021` (spec §4.2 step 3), from the missing `utils.h`. -/
def CCITT_FALSE_POLY : Nat := 0x1021

/-- Modelled from the spec: `CCITT_FALSE_INIT`, the CRC-16 initial
value `0xFFFF` (spec §4.2 step 3), from the missing `utils.h`. -/
def CCITT_FALSE_INIT : Nat := 0xFFFF

/-- The fixed 64-byte pseudo-random whitening sequence `_prn`
(decoder.cpp, lines 10-19). -/
def rs41Prn : List Nat :=
  [0x96, 0x83, 0x3e, 0x51, 0xb1, 0x49, 0x08, 0x98,
   0x32, 0x05, 0x59, 0x0e, 0xf9, 0x44, 0xc6, 0x26,
   0x21, 0x60, 0xc2, 0xea, 0x79, 0x5d, 0x6d, 0xa1,
   0x54, 0x69, 0x47, 0x0c, 0xdc, 0xe8, 0x5c, 0xf1,
   0xf7, 0x76, 0x82, 0x7f, 0x07, 0x99, 0xa2, 0x2c,
   0x93, 0x7c, 0x30, 0x63, 0xf5, 0x10, 0x2e, 0x61,
   0xd0, 0xbc, 0xb4, 0xb6, 0x06, 0xaa, 0xf4, 0x23,
   0x78, 0x6e, 0x3b, 0xae, 0xbf, 0x7b, 0x4c, 0xc1]

/-- Reverse the bit order of one byte, as the inner loop of
`RS41Decoder::descramble` does (decoder.cpp, lines 126-129). -/
def bitrevByte (b : Nat) : Nat :=
  (List.range 8).foldl (fun tmp j => tmp ||| (((b >>> (7 - j)) &&& 1) <<< j)) 0

/-- `RS41Decoder::descramble` (decoder.cpp, lines 117-132): for every
byte of the frame, reverse its bits, invert them, and xor with the PRN
sequence cycling by byte position modulo 64. -/
def descramble (raw : List Nat) : List Nat :=
  (List.range raw.length).map
    (fun i => 0xFF ^^^ bitrevByte (raw.getD i 0) ^^^ rs41Prn.getD (i % 64) 0)

/-- Modelled from the spec: `crc16` of `utils.h`, the CRC-16/CCITT-FALSE
computation (spec §4.2 step 3 and §6: polynomial `0x1021`, initial
value `0xFFFF`, most-significant-bit-first over the payload bytes). -/
def crc16 (poly init : Nat) (data : List Nat) : Nat :=
  data.foldl
    (fun crc b =>
      (List.range 8).foldl
        (fun c _ =>
          if c &&& 0x8000 ≠ 0 then ((c <<< 1) ^^^ poly) &&& 0xFFFF
          else (c <<< 1) &&& 0xFFFF)
        ((crc ^^^ (b <<< 8)) &&& 0xFFFF))
    init

/-- Write the bytes `vs` into `l` starting at position `pos`
(sequential `List.set`, so writes that fall outside the list are
dropped; the C code's in-bounds `memcpy` agrees with this on every
in-bounds write). -/
def overwrite {α : Type} : List α → Nat → List α → List α
  | l, _, [] => l
  | l, pos, v :: vs => overwrite (l.set pos v) (pos + 1) vs

/-- An RS41 frame split per the spec's binary schema (§6): one flag
byte, the data region, the trailing parity region. -/
structure RFrame where
  flag : Nat
  data : List Nat
  parity : List Nat
  deriving Repr, DecidableEq

/-- Split a raw frame byte list into the schema regions. -/
def frameOfBytes (raw : List Nat) : RFrame :=
  { flag := raw.getD 0 0,
    data := (raw.drop 1).take (RS41_DATA_LEN + RS41_XDATA_LEN),
    parity := (raw.drop (1 + RS41_DATA_LEN + RS41_XDATA_LEN)).take (2 * RS41_REEDSOLOMON_T) }

/-- The deinterleave gather of `RS41Decoder::rsCorrect` (decoder.cpp,
lines 150-156): the scratch codeword for block `block` holds
`frame->data[INTERLEAVING*i + block - 1]` at position `i` for
`i < chunkLen` — equivalently position `INTERLEAVING*i + block` of the
flag byte followed by the data region, since `data[-1]` is the flag
byte — and that block's `T` parity symbols at positions `K..K+T-1`;
the rest of the scratch buffer is the `memset` zero fill. -/
def gatherBlock (fr : RFrame) (chunkLen block : Nat) : List Nat :=
  let ext := fr.flag :: fr.data
  let base := List.replicate RS41_REEDSOLOMON_N 0
  let withData := (List.range chunkLen).foldl
    (fun acc i => acc.set i (ext.getD (RS41_REEDSOLOMON_INTERLEAVING * i + block) 0)) base
  (List.range RS41_REEDSOLOMON_T).foldl
    (fun acc i =>
      acc.set (RS41_REEDSOLOMON_K + i)
        (fr.parity.getD (i + RS41_REEDSOLOMON_T * block) 0))
    withData

/-- The reinterleave scatter of `RS41Decoder::rsCorrect` (decoder.cpp,
lines 161-167): write the codeword's data symbols back to
`frame->data[INTERLEAVING*i + block - 1]` and its parity symbols back
to `frame->rs_checksum[i + T*block]`. -/
def scatterBlock (fr : RFrame) (chunkLen block : Nat) (blk : List Nat) : RFrame :=
  let ext := fr.flag :: fr.data
  let ext1 := (List.range chunkLen).foldl
    (fun acc i =>
      acc.set (RS41_REEDSOLOMON_INTERLEAVING * i + block) (blk.getD i 0)) ext
  let parity1 := (List.range RS41_REEDSOLOMON_T).foldl
    (fun acc i => acc.set (i + RS41_REEDSOLOMON_T * block) (blk.getD (RS41_REEDSOLOMON_K + i) 0))
    fr.parity
  { flag := ext1.getD 0 0, data := ext1.drop 1, parity := parity1 }

/-- `RS41Decoder::rsCorrect` (decoder.cpp, lines 134-171).  The
external Reed-Solomon engine (spec §1: a library collaborator) is a
parameter `decode`; `none` models a decode failure, in which case the
scratch buffer is scattered back unchanged.  Returns the corrected
frame and the `valid` flag the source computes. -/
def rsCorrect (decode : List Nat → Option (List Nat)) (fr : RFrame) :
    RFrame × Bool :=
  let chunkLen :=
    if fr.flag ≠ RS41_FLAG_EXTENDED then
      (RS41_DATA_LEN + 1) / RS41_REEDSOLOMON_INTERLEAVING
    else RS41_REEDSOLOMON_K
  (List.range RS41_REEDSOLOMON_INTERLEAVING).foldl
    (fun acc block =>
      let blk := gatherBlock acc.1 chunkLen block
      match decode blk with
      | some out => (scatterBlock acc.1 chunkLen block out, acc.2)
      | none => (scatterBlock acc.1 chunkLen block blk, false))
    (fr, true)

/-- Persistent decoder state: the calibration buffer
(`RS41_CALIB_FRAGCOUNT * RS41_CALIB_FRAGSIZE` bytes), the
fragment bitmap (one bit per slot, 7 bytes), and the `_calibrated`
flag. -/
structure DecState where
  calib : List Nat
  bitmap : List Nat
  calibrated : Bool
  deriving Repr, DecidableEq

/-- The value the source's `init` leaves in the last bitmap byte
(decoder.cpp, line 53): `0xFF & (~(1 << (7 - FRAGCOUNT%8)) - 1)`,
with C's two's-complement `int` arithmetic (unary `~` binds tighter
than binary `-`, so the expression is `(~(1 << s)) - 1 = -(1 << s) - 2`
whose low byte is `254 - (1 << s)` since `1 << s ≤ 128` for `s ≤ 7`). -/
def calibLastByteInit (fragCount : Nat) : Nat :=
  254 - (1 <<< (7 - fragCount % 8))

/-- The bitmap as `RS41Decoder::init` builds it (decoder.cpp, lines
52-53): `memset(_calibDataBitmap, 0xFF, 7)` followed by the masking of
the last byte. -/
def calibBitmapInit : List Nat :=
  (List.replicate 7 255).set 6 (255 &&& calibLastByteInit RS41_CALIB_FRAGCOUNT)

/-- The decoder state after `RS41Decoder::init`.  The C code never
initializes `_calibData` itself; its bytes are modelled as zero. -/
def decStateInit : DecState :=
  { calib := List.replicate (RS41_CALIB_FRAGCOUNT * RS41_CALIB_FRAGSIZE) 0,
    bitmap := calibBitmapInit,
    calibrated := false }

/-- The bitmap byte value the spec describes for the last byte
(spec §4.3: all fragment bits set, slots beyond the declared fragment
count pre-cleared): bits `0 .. fragCount%8 - 1` set, the rest clear.
Spec-words definition for comparison with `calibLastByteInit`. -/
def calibLastByteDescribed (fragCount : Nat) : Nat :=
  (1 <<< (fragCount % 8)) - 1

/-- `RS41Decoder::updateCalibData` (decoder.cpp, lines 233-250):
copy the 16-byte fragment to `frag_seq * RS41_CALIB_FRAGSIZE`, clear
bit `frag_seq` of the bitmap, and set `_calibrated` when every bitmap
byte is zero.  The source performs no bound check on `frag_seq`; for
`frag_seq ≥ RS41_CALIB_FRAGCOUNT` the `memcpy` lands beyond
`_calibData` (undefined behaviour in C, clipped writes here) while
bitmap indices up to 55 still hit the real 7-byte array. -/
def updateCalibData (st : DecState) (fragSeq : Nat) (frag : List Nat) : DecState :=
  let calib := overwrite st.calib (fragSeq * RS41_CALIB_FRAGSIZE) frag
  let bitmap := st.bitmap.set (fragSeq / 8)
    ((st.bitmap.getD (fragSeq / 8) 0) &&& (255 ^^^ (1 <<< (fragSeq % 8))))
  { calib := calib, bitmap := bitmap,
    calibrated := if bitmap.all (fun b => b = 0) then true else st.calibrated }

/-- Modelled from the spec: the burst-kill timer field of the
assembled calibration record (`_calibData.burstkill_timer`); its byte
offset inside the record comes from the missing `rs41.h` and is
modelled as a 16-bit little-endian field at offset 0. -/
def burstkillTimer (st : DecState) : Nat :=
  st.calib.getD 0 0 ||| ((st.calib.getD 1 0) <<< 8)

/-- The output telemetry record (spec §3 TelemetryRecord), with the
geodetic position/velocity block abstracted to a type `G` because the
ECEF conversions are external floating-point collaborators (spec §1). -/
structure SondeData (G : Type) where
  calibrated : Bool
  serial : List Nat
  burstkill : Int
  seq : Nat
  gps : G
  deriving Repr, DecidableEq

/-- Modelled from the spec: the freshly constructed, default-valued
telemetry record (spec §3). -/
def sondeDataInit {G : Type} (g0 : G) : SondeData G :=
  { calibrated := false, serial := [], burstkill := 0, seq := 0, gps := g0 }

/-- The declared payload length of the sub-record starting at `off`
(`subframe->len`, the byte after the type tag). -/
def sfLen (pool : List Nat) (off : Nat) : Nat :=
  pool.getD (off + 1) 0

/-- `RS41Decoder::crcCheck` (decoder.cpp, lines 173-180): CRC-16 with
`CCITT_FALSE_POLY`/`CCITT_FALSE_INIT` over the payload, compared with
the two trailing bytes read little-endian. -/
def crcCheck (pool : List Nat) (off : Nat) : Bool :=
  let ln := sfLen pool off
  crc16 CCITT_FALSE_POLY CCITT_FALSE_INIT ((pool.drop (off + 2)).take ln)
    = (pool.getD (off + 2 + ln) 0 ||| ((pool.getD (off + 3 + ln) 0) <<< 8))

/-- `RS41Decoder::updateSondeData` (decoder.cpp, lines 182-231) for
the sub-record starting at `off`.  STATUS feeds the calibration
assembler and then fills identity fields from the (updated) persistent
state; GPS position applies the external transform `gpsT` to the six
raw coordinate words; every other type is an explicit no-op.  The
byte offsets of the STATUS fields (`frame_seq` at payload offset 0,
`serial` at 2, `frag_seq` at 10, `frag_data` at 11) are modelled from
the spec, the exact layout living in the missing `rs41.h`; like the
C pointer casts they are read at fixed offsets from the record start
regardless of the declared length. -/
def updateSondeData {G : Type} (gpsT : List Nat → G) (pool : List Nat)
    (off : Nat) (sd : SondeData G) (dec : DecState) : SondeData G × DecState :=
  let t := pool.getD off 0
  if t = RS41_SFTYPE_INFO then
    let fragSeq := pool.getD (off + 12) 0
    let frag := (pool.drop (off + 13)).take RS41_CALIB_FRAGSIZE
    let dec1 := updateCalibData dec fragSeq frag
    let bk := burstkillTimer dec1
    ({ calibrated := dec1.calibrated,
       serial := (pool.drop (off + 4)).take 8,
       burstkill := if bk = 0xFFFF then -1 else (bk : Int),
       seq := pool.getD (off + 2) 0 + 256 * pool.getD (off + 3) 0,
       gps := sd.gps }, dec1)
  else if t = RS41_SFTYPE_GPSPOS then
    ({ sd with gps := gpsT ((pool.drop (off + 2)).take 24) }, dec)
  else (sd, dec)

/-- The sub-record walk of `RS41Decoder::run` (decoder.cpp, lines
93-106), with the dispatch inlined as in the source: while
`off < bound`, advance by `len + 4`, stop when the advance exceeds the
bound, skip the record on checksum mismatch, otherwise dispatch.
Each iteration advances the offset by at least 4, so `bound + 1` units
of fuel always complete the walk. -/
def walkDispatch {G : Type} (gpsT : List Nat → G) (pool : List Nat)
    (bound : Nat) : Nat → Nat → SondeData G × DecState → SondeData G × DecState
  | 0, _, acc => acc
  | f + 1, off, acc =>
    if off < bound then
      let off2 := off + sfLen pool off + 4
      if bound < off2 then acc
      else if crcCheck pool off then
        walkDispatch gpsT pool bound f off2 (updateSondeData gpsT pool off acc.1 acc.2)
      else walkDispatch gpsT pool bound f off2 acc
    else acc

/-- The record-start offsets the walk of `RS41Decoder::run` visits:
the loop body is entered at `off` whenever `off < bound`, and the walk
continues past `off` only when `off + len + 4` stays within the
bound. -/
def walkOffsets (pool : List Nat) (bound : Nat) : Nat → Nat → List Nat
  | 0, _ => []
  | f + 1, off =>
    if off < bound then
      let off2 := off + sfLen pool off + 4
      if bound < off2 then [off] else off :: walkOffsets pool bound f off2
    else []

/-- The offsets of the records the walk actually dispatches: in-bound
records whose checksum verifies. -/
def validOffsets (pool : List Nat) (bound : Nat) : Nat → Nat → List Nat
  | 0, _ => []
  | f + 1, off =>
    if off < bound then
      let off2 := off + sfLen pool off + 4
      if bound < off2 then []
      else if crcCheck pool off then off :: validOffsets pool bound f off2
      else validOffsets pool bound f off2
    else []

/-- The sub-record walk as the specification describes it (spec §4.2
step 3): starting at offset 0, repeatedly read the record, compute its
total span as `payload length + 4`, stop — discarding the partial
record — if advancing by the span would exceed the region's byte
bound, verify the trailing CRC-16 little-endian, and on mismatch skip
only that record while the walk continues at the next boundary.
Spec-words definition for comparison with `validOffsets`. -/
def walkDescribed (pool : List Nat) (bound : Nat) : Nat → Nat → List Nat
  | 0, _ => []
  | f + 1, off =>
    if bound ≤ off then []
    else
      let span := sfLen pool off + 4
      if off + span ≤ bound then
        (if crc16 CCITT_FALSE_POLY CCITT_FALSE_INIT
              ((pool.drop (off + 2)).take (sfLen pool off))
            = (pool.getD (off + 2 + sfLen pool off) 0
                ||| ((pool.getD (off + 3 + sfLen pool off) 0) <<< 8))
         then [off] else [])
          ++ walkDescribed pool bound f (off + span)
      else []

/-- The frame handed to the sub-record walk: descrambled, then error
corrected when the Reed-Solomon engine is present (`if (_rs)
rsCorrect(frame);`, decoder.cpp line 90). -/
def decodedFrame (rs : Option (List Nat → Option (List Nat)))
    (raw : List Nat) : RFrame :=
  let f1 := frameOfBytes (descramble raw)
  match rs with
  | some dec => (rsCorrect dec f1).1
  | none => f1

/-- `bytesLeft` of `RS41Decoder::run` (decoder.cpp, line 92): the
data-region byte bound, extended frames included. -/
def frameBound (fr : RFrame) : Nat :=
  RS41_DATA_LEN + (if fr.flag = RS41_FLAG_EXTENDED then RS41_XDATA_LEN else 0)

/-- The byte pool the walk indexes into: the data region followed by
the parity region (the bytes adjacent to the data region in the frame
layout). -/
def framePool (fr : RFrame) : List Nat :=
  fr.data ++ fr.parity

/-- One iteration of the frame loop of `RS41Decoder::run` (decoder.cpp,
lines 85-109): descramble, error correct, walk the sub-records
updating the telemetry record and the persistent state. -/
def processFrame {G : Type} (rs : Option (List Nat → Option (List Nat)))
    (gpsT : List Nat → G) (acc : SondeData G × DecState) (raw : List Nat) :
    SondeData G × DecState :=
  let fr := decodedFrame rs raw
  walkDispatch gpsT (framePool fr) (frameBound fr) (frameBound fr + 1) 0 acc

/-- `RS41Decoder::run` (decoder.cpp, lines 70-114) over a batch of
frames: the `SondeData` local is declared once, before the frame loop,
and the handler is invoked with its current value after each frame;
the list of handler arguments and the final persistent state are
returned. -/
def runFrames {G : Type} (rs : Option (List Nat → Option (List Nat)))
    (gpsT : List Nat → G) (g0 : G) (dec : DecState)
    (frames : List (List Nat)) : List (SondeData G) × DecState :=
  let r := frames.foldl
    (fun (st : List (SondeData G) × SondeData G × DecState) raw =>
      let out := processFrame rs gpsT (st.2.1, st.2.2) raw
      (st.1 ++ [out.1], out.1, out.2))
    ([], sondeDataInit g0, dec)
  (r.1, r.2.2)

/-! ## Calibration assembler claims -/

/-- C5: the calibration bitmap the source builds does not match the
spec and calibration can never complete.  The masking of the last
bitmap byte (decoder.cpp, line 53) evaluates to `0xEE`, not the
described `0x07` (bits beyond the 51 declared fragments cleared): bits
3, 5, 6 and 7 of the last byte remain set although no declared
fragment can ever clear them, and bits 0 and 4 (real slots 48 and 52)
are pre-cleared instead.  Applying every declared fragment
`0 .. 50` therefore leaves the last bitmap byte at `0xE8` and
`calibrated` at `false`, where the spec requires `true`. -/
theorem calibration_never_completes :
    calibBitmapInit.getD 6 0 = 0xEE ∧
    calibLastByteDescribed RS41_CALIB_FRAGCOUNT = 0x07 ∧
    ((List.range RS41_CALIB_FRAGCOUNT).foldl
        (fun st i => updateCalibData st i (List.replicate RS41_CALIB_FRAGSIZE 0))
        decStateInit).calibrated = false ∧
    ((List.range RS41_CALIB_FRAGCOUNT).foldl
        (fun st i => updateCalibData st i (List.replicate RS41_CALIB_FRAGSIZE 0))
        decStateInit).bitmap.getD 6 0 = 0xE8 := by
  decide

/-- C7: `updateCalibData` performs no bound check on the fragment
index.  Applying a fragment with index 51 — outside the declared range
`0 .. 50` — is not a no-op: the bitmap changes (bit 3 of the last byte
is cleared, `0xEE` becoming `0xE6`), and in the C code the
accompanying `memcpy` writes 16 bytes past the end of `_calibData`. -/
theorem out_of_range_fragment_mutates_state :
    updateCalibData decStateInit 51 (List.replicate RS41_CALIB_FRAGSIZE 7)
      ≠ decStateInit ∧
    (updateCalibData decStateInit 51 (List.replicate RS41_CALIB_FRAGSIZE 7)).bitmap.getD 6 0
      = 0xE6 := by
  decide

/-! ## FEC error-handling claims -/

/-- The corrected bytes `rsCorrect` produces do not depend on whether
the Reed-Solomon engine reported failure: a decode returning `none`
scatters the gathered scratch buffer back unchanged, exactly as a
decode returning its input unchanged does.  Both sides reduce to the
same gather/scatter expression. -/
theorem rsCorrect_fst_decode_independent (fr : RFrame) :
    (rsCorrect (fun _ => none) fr).1 = (rsCorrect (fun c => some c) fr).1 := rfl

/-- A failing decode always yields `valid = false`. -/
theorem rsCorrect_snd_fail (fr : RFrame) :
    (rsCorrect (fun _ => none) fr).2 = false := rfl

/-- A succeeding decode yields `valid = true`. -/
theorem rsCorrect_snd_ok (fr : RFrame) :
    (rsCorrect (fun c => some c) fr).2 = true := rfl

/-- Fixed all-zero raw frame used to exercise the FEC failure path. -/
def zeroRaw : List Nat := List.replicate 510 0

/-- One frame-loop iteration produces the same result under a
failing engine and under a succeeding identity engine. -/
theorem processFrame_decode_independent {G : Type} (gpsT : List Nat → G)
    (acc : SondeData G × DecState) (raw : List Nat) :
    processFrame (some (fun _ => none)) gpsT acc raw
      = processFrame (some (fun c => some c)) gpsT acc raw := by
  simp only [processFrame, decodedFrame, rsCorrect_fst_decode_independent]

/-- The frame loop produces the same accumulator under a failing
engine and under a succeeding identity engine. -/
theorem runFold_decode_independent {G : Type} (gpsT : List Nat → G) :
    ∀ (frames : List (List Nat)) (st : List (SondeData G) × SondeData G × DecState),
      frames.foldl
        (fun (st : List (SondeData G) × SondeData G × DecState) raw =>
          let out := processFrame (some (fun _ => none)) gpsT (st.2.1, st.2.2) raw
          (st.1 ++ [out.1], out.1, out.2)) st
      = frames.foldl
        (fun (st : List (SondeData G) × SondeData G × DecState) raw =>
          let out := processFrame (some (fun c => some c)) gpsT (st.2.1, st.2.2) raw
          (st.1 ++ [out.1], out.1, out.2)) st
  | [], _ => rfl
  | _ :: _, _ => by
    simp only [List.foldl_cons, processFrame_decode_independent]

/-- A whole batch produces the same outputs and final state under a
failing engine and under a succeeding identity engine. -/
theorem runFrames_decode_independent {G : Type} (gpsT : List Nat → G)
    (g0 : G) (dec : DecState) (frames : List (List Nat)) :
    runFrames (some (fun _ => none)) gpsT g0 dec frames
      = runFrames (some (fun c => some c)) gpsT g0 dec frames := by
  unfold runFrames
  exact congrArg (fun r : List (SondeData G) × SondeData G × DecState => (r.1, r.2.2))
    (runFold_decode_independent gpsT frames ([], sondeDataInit g0, dec))

/-- C6 counterexample: a Reed-Solomon failure is NOT recorded on the
frame.  Running the decoder on the same concrete frame with an engine
that fails on every block and with one that succeeds on every block
(returning the codeword unchanged) produces identical output — the
identical telemetry record and identical persistent state — even
though `rsCorrect` computed `valid = false` in the first case and
`valid = true` in the second: `run` discards `rsCorrect`'s return
value (decoder.cpp, line 90), so no "uncorrected" quality flag exists
anywhere in the delivered data. -/
theorem rs_failure_leaves_no_trace :
    runFrames (some (fun _ => none)) (fun _ => (0 : Nat)) 0 decStateInit [zeroRaw]
      = runFrames (some (fun c => some c)) (fun _ => (0 : Nat)) 0 decStateInit [zeroRaw] ∧
    (rsCorrect (fun _ => none) (frameOfBytes (descramble zeroRaw))).2 = false ∧
    (rsCorrect (fun c => some c) (frameOfBytes (descramble zeroRaw))).2 = true :=
  ⟨runFrames_decode_independent _ _ _ _, rfl, rfl⟩

/-- Helper for C6: the output list of the frame loop grows by exactly
one record per frame, whatever the FEC engine does. -/
theorem runFold_length {G : Type} (rs : Option (List Nat → Option (List Nat)))
    (gpsT : List Nat → G) :
    ∀ (frames : List (List Nat)) (outs : List (SondeData G))
      (sd : SondeData G) (dec : DecState),
      (frames.foldl
        (fun (st : List (SondeData G) × SondeData G × DecState) raw =>
          let out := processFrame rs gpsT (st.2.1, st.2.2) raw
          (st.1 ++ [out.1], out.1, out.2))
        (outs, sd, dec)).1.length = outs.length + frames.length
  | [], outs, sd, dec => by simp
  | raw :: frames, outs, sd, dec => by
    rw [List.foldl_cons, runFold_length rs gpsT frames]
    simp
    omega

/-- C6 (amended): failure of the Reed-Solomon decode never aborts
processing — every frame of every batch is delivered to the handler
exactly once, whatever the FEC engine reports; but the validity result
is discarded by the caller, so no "uncorrected" flag is recorded on
the frame (see `rs_failure_leaves_no_trace`). -/
theorem run_delivers_every_frame {G : Type} (rs : Option (List Nat → Option (List Nat)))
    (gpsT : List Nat → G) (g0 : G) (dec : DecState) (frames : List (List Nat)) :
    (runFrames rs gpsT g0 dec frames).1.length = frames.length := by
  simp [runFrames, runFold_length]

/-! ## Per-frame freshness of the telemetry record -/

/-- The walk-with-dispatch is the fold of the dispatch over the
offsets of the valid records. -/
theorem walkDispatch_eq_fold {G : Type} (gpsT : List Nat → G)
    (pool : List Nat) (bound : Nat) :
    ∀ (f off : Nat) (acc : SondeData G × DecState),
      walkDispatch gpsT pool bound f off acc
        = (validOffsets pool bound f off).foldl
            (fun a o => updateSondeData gpsT pool o a.1 a.2) acc
  | 0, _, _ => rfl
  | f + 1, off, acc => by
    simp only [walkDispatch, validOffsets]
    split_ifs with h1 h2 h3
    · rfl
    · rw [List.foldl_cons]
      exact walkDispatch_eq_fold gpsT pool bound f _ _
    · exact walkDispatch_eq_fold gpsT pool bound f _ _
    · rfl

/-- A frame whose walk dispatches no record leaves the telemetry
record and the persistent state untouched. -/
theorem processFrame_id_of_no_valid_records {G : Type} (gpsT : List Nat → G)
    (rs : Option (List Nat → Option (List Nat))) (raw : List Nat)
    (h : validOffsets (framePool (decodedFrame rs raw))
          (frameBound (decodedFrame rs raw))
          (frameBound (decodedFrame rs raw) + 1) 0 = [])
    (acc : SondeData G × DecState) :
    processFrame rs gpsT acc raw = acc := by
  simp only [processFrame]
  rw [walkDispatch_eq_fold, h]
  rfl

/-- Payload of the concrete STATUS sub-record used below: frame
sequence number 5, serial `ABCDEFGH`, calibration fragment 0 with an
all-zero body. -/
def statusPayload : List Nat :=
  [5, 0, 65, 66, 67, 68, 69, 70, 71, 72, 0] ++ List.replicate 16 0

/-- Plaintext (post-descrambling) contents of the first concrete
frame: standard flag, one checksummed STATUS record (CRC-16 `0x29DB`,
little-endian `219, 41`), then a length byte of 255 that drives the
walk out of bounds, ending it. -/
def statusPlain : List Nat :=
  [0] ++ ([0x79, 27] ++ statusPayload ++ [219, 41]) ++ [0, 255]
    ++ List.replicate 476 0

/-- The concrete raw frame that descrambles to `statusPlain`
(descrambling is a bijection; this is its inverse image). -/
def rawFrameA : List Nat :=
  (List.range 510).map
    (fun i => bitrevByte (0xFF ^^^ rs41Prn.getD (i % 64) 0 ^^^ statusPlain.getD i 0))

/-- The concrete raw frame that descrambles to all-zero bytes: its
data region walks as 65 empty records, every checksum failing, so no
record is dispatched. -/
def rawFrameB : List Nat :=
  (List.range 510).map
    (fun i => bitrevByte (0xFF ^^^ rs41Prn.getD (i % 64) 0))

/-- C8 counterexample: the emitted telemetry record is NOT freshly
constructed for every frame.  The `SondeData` local of `run` is
declared once, before the frame loop (decoder.cpp, line 73), so in a
batch of two frames where the second contains no valid sub-record the
second emitted record equals the first one — its sequence number is
still 5, taken from the first frame's STATUS record — instead of
holding the default value 0. -/
theorem record_fields_leak_across_frames :
    ((runFrames none (fun _ => (0 : Nat)) 0 decStateInit
        [rawFrameA, rawFrameB]).1.getD 1 (sondeDataInit 0)).seq = 5 ∧
    (runFrames none (fun _ => (0 : Nat)) 0 decStateInit
        [rawFrameA, rawFrameB]).1.getD 1 (sondeDataInit 0)
      = (runFrames none (fun _ => (0 : Nat)) 0 decStateInit
          [rawFrameA, rawFrameB]).1.getD 0 (sondeDataInit 0) ∧
    (sondeDataInit (0 : Nat)).seq = 0 ∧
    validOffsets (framePool (decodedFrame none rawFrameB))
      (frameBound (decodedFrame none rawFrameB))
      (frameBound (decodedFrame none rawFrameB) + 1) 0 = [] := by
  decide

/-- C8 (amended): the telemetry record is freshly constructed once per
`run()` invocation, not once per frame: within a batch, fields not
touched by a frame's sub-records retain the values from the earlier
frames of the same batch (the calibration flag, serial and burst-kill
values are additionally drawn from persistent decoder state when a
STATUS record is present).  Concretely, when the second frame of a
batch dispatches no valid sub-record, the record emitted for it equals
the record emitted for the first frame. -/
theorem record_carries_over_when_no_valid_records {G : Type}
    (gpsT : List Nat → G) (g0 : G) (rs : Option (List Nat → Option (List Nat)))
    (dec : DecState) (raw1 raw2 : List Nat)
    (h : validOffsets (framePool (decodedFrame rs raw2))
          (frameBound (decodedFrame rs raw2))
          (frameBound (decodedFrame rs raw2) + 1) 0 = []) :
    (runFrames rs gpsT g0 dec [raw1, raw2]).1.getD 1 (sondeDataInit g0)
      = (runFrames rs gpsT g0 dec [raw1]).1.getD 0 (sondeDataInit g0) := by
  simp only [runFrames, List.foldl_cons, List.foldl_nil]
  rw [processFrame_id_of_no_valid_records gpsT rs raw2 h]
  rfl

/-- Witness for `record_carries_over_when_no_valid_records` at the
concrete batch `[rawFrameA, rawFrameB]`. -/
theorem record_carries_over_when_no_valid_records_witness :
    (validOffsets (framePool (decodedFrame none rawFrameB))
        (frameBound (decodedFrame none rawFrameB))
        (frameBound (decodedFrame none rawFrameB) + 1) 0 = []) ∧
    (runFrames none (fun _ => (0 : Nat)) 0 decStateInit
        [rawFrameA, rawFrameB]).1.getD 1 (sondeDataInit 0)
      = (runFrames none (fun _ => (0 : Nat)) 0 decStateInit
          [rawFrameA]).1.getD 0 (sondeDataInit 0) :=
  ⟨by decide,
   record_carries_over_when_no_valid_records (fun _ => (0 : Nat)) 0 none
     decStateInit rawFrameA rawFrameB (by decide)⟩

/-! ## Sub-record walk: refinement and termination -/

/-- C4: the sub-record walk dispatches exactly the records the spec
describes.  `validOffsets` (the offsets the source loop of
`RS41Decoder::run` dispatches after its bound and checksum tests) is
extensionally equal to `walkDescribed` (the walk as the specification
words it: start at offset 0, advance by the declared payload length
plus 4, stop — silently discarding the trailing partial record — when
the advance would exceed the region's bound, verify the CRC-16
little-endian, and on mismatch skip just that record).  Together with
`walkDispatch_eq_fold` this settles the walk's error handling as
specified. -/
theorem subframe_walk_matches_described (pool : List Nat) (bound : Nat) :
    ∀ (f off : Nat),
      validOffsets pool bound f off = walkDescribed pool bound f off
  | 0, _ => rfl
  | f + 1, off => by
    rw [validOffsets, walkDescribed]
    by_cases h1 : off < bound
    · have h1' : ¬ bound ≤ off := by omega
      simp only [if_pos h1, if_neg h1']
      by_cases h2 : bound < off + sfLen pool off + 4
      · have h2' : ¬ (off + (sfLen pool off + 4) ≤ bound) := by omega
        simp only [if_pos h2, if_neg h2']
      · have h2' : off + (sfLen pool off + 4) ≤ bound := by omega
        simp only [if_neg h2, if_pos h2']
        have harith : off + (sfLen pool off + 4) = off + sfLen pool off + 4 := by omega
        by_cases h3 : crc16 CCITT_FALSE_POLY CCITT_FALSE_INIT
            ((pool.drop (off + 2)).take (sfLen pool off))
            = (pool.getD (off + 2 + sfLen pool off) 0
                ||| ((pool.getD (off + 3 + sfLen pool off) 0) <<< 8))
        · have hb : crcCheck pool off = true := by
            simp only [crcCheck]
            exact decide_eq_true h3
          rw [hb, if_pos h3, harith]
          simp only [List.cons_append, List.nil_append]
          rw [subframe_walk_matches_described pool bound f]
          simp
        · have hb : crcCheck pool off = false := by
            simp only [crcCheck]
            exact decide_eq_false h3
          rw [hb, if_neg h3, harith]
          simp only [List.nil_append]
          rw [subframe_walk_matches_described pool bound f]
          simp
    · have h1' : bound ≤ off := by omega
      simp only [if_neg h1, if_pos h1']

/-- If the walk's visited-offset list is nonempty, its head is the
start offset. -/
theorem walkOffsets_head (pool : List Nat) (bound : Nat) :
    ∀ (f off y : Nat), (walkOffsets pool bound f off).head? = some y → y = off
  | 0, _, _, h => by simp [walkOffsets] at h
  | f + 1, off, y, h => by
    simp only [walkOffsets] at h
    split_ifs at h
    · simp only [List.head?_cons, Option.some.injEq] at h
      omega
    · simp only [List.head?_cons, Option.some.injEq] at h
      omega
    · simp at h

/-- Each visited offset is at least 4 beyond its predecessor: the
advance is the declared payload length plus 4. -/
theorem walkOffsets_chain (pool : List Nat) (bound : Nat) :
    ∀ (f off : Nat),
      List.Chain' (fun a b => a + 4 ≤ b) (walkOffsets pool bound f off)
  | 0, _ => List.chain'_nil
  | f + 1, off => by
    simp only [walkOffsets]
    split_ifs with h1 h2
    · exact List.chain'_singleton off
    · refine (List.chain'_cons'.mpr ⟨?_, walkOffsets_chain pool bound f _⟩)
      intro y hy
      have := walkOffsets_head pool bound f _ y hy
      omega
    · exact List.chain'_nil

/-- Four times the number of visited offsets never exceeds the
remaining region plus one advance. -/
theorem walkOffsets_length (pool : List Nat) (bound : Nat) :
    ∀ (f off : Nat),
      4 * (walkOffsets pool bound f off).length ≤ bound - off + 4
  | 0, _ => by simp [walkOffsets]
  | f + 1, off => by
    simp only [walkOffsets]
    split_ifs with h1 h2
    · simp only [List.length_singleton]
      omega
    · have ih := walkOffsets_length pool bound f (off + sfLen pool off + 4)
      simp only [List.length_cons]
      omega
    · simp only [List.length_nil]
      omega

/-- The walk's result does not depend on the fuel once the fuel covers
the region: with at least `(bound - off)/4 + 1` iterations available
the recursion has already stopped. -/
theorem walkDispatch_fuel {G : Type} (gpsT : List Nat → G)
    (pool : List Nat) (bound : Nat) :
    ∀ (f g off : Nat) (acc : SondeData G × DecState),
      bound ≤ off + 4 * f → bound ≤ off + 4 * g →
      walkDispatch gpsT pool bound f off acc
        = walkDispatch gpsT pool bound g off acc
  | 0, 0, _, _ => fun _ _ => rfl
  | 0, g + 1, off, acc => fun hf _ => by
    have hn : ¬ off < bound := by omega
    simp [walkDispatch, hn]
  | f + 1, 0, off, acc => fun _ hg => by
    have hn : ¬ off < bound := by omega
    simp [walkDispatch, hn]
  | f + 1, g + 1, off, acc => fun hf hg => by
    simp only [walkDispatch]
    split_ifs with h1 h2 h3
    · rfl
    · exact walkDispatch_fuel gpsT pool bound f g _ _ (by omega) (by omega)
    · exact walkDispatch_fuel gpsT pool bound f g _ _ (by omega) (by omega)
    · rfl

/-- C10: the sub-record walk terminates on every frame content.  The
visited offsets strictly increase by at least 4 per iteration, the
walk over a `bound`-byte region visits at most `bound / 4 + 1`
records, and the walk computed with any fuel of at least `bound + 1`
iterations — in particular the unbounded C loop — equals the walk with
exactly `bound + 1` iterations: the recursion has stopped. -/
theorem subframe_walk_terminates {G : Type} (gpsT : List Nat → G)
    (pool : List Nat) (bound f : Nat) (acc : SondeData G × DecState)
    (hf : bound + 1 ≤ f) :
    List.Chain' (fun a b => a + 4 ≤ b) (walkOffsets pool bound (bound + 1) 0) ∧
    (walkOffsets pool bound (bound + 1) 0).length ≤ bound / 4 + 1 ∧
    walkDispatch gpsT pool bound f 0 acc
      = walkDispatch gpsT pool bound (bound + 1) 0 acc := by
  refine ⟨walkOffsets_chain pool bound _ _, ?_, ?_⟩
  · have h := walkOffsets_length pool bound (bound + 1) 0
    have h2 : (walkOffsets pool bound (bound + 1) 0).length ≤ (bound + 4) / 4 := by
      rw [Nat.le_div_iff_mul_le (by norm_num)]
      omega
    have h3 : (bound + 4) / 4 = bound / 4 + 1 := by
      rw [Nat.add_div_right bound (by norm_num)]
    omega
  · exact walkDispatch_fuel gpsT pool bound f (bound + 1) 0 acc (by omega) (by omega)

/-- Witness for `subframe_walk_terminates` at a concrete pool, bound
and fuel. -/
theorem subframe_walk_terminates_witness :
    (8 + 1 ≤ 12) ∧
    (List.Chain' (fun a b => a + 4 ≤ b) (walkOffsets [1, 2, 3] 8 (8 + 1) 0) ∧
    (walkOffsets [1, 2, 3] 8 (8 + 1) 0).length ≤ 8 / 4 + 1 ∧
    walkDispatch (fun _ => (0 : Nat)) [1, 2, 3] 8 12 0 (sondeDataInit 0, decStateInit)
      = walkDispatch (fun _ => (0 : Nat)) [1, 2, 3] 8 (8 + 1) 0 (sondeDataInit 0, decStateInit)) :=
  ⟨by decide,
   subframe_walk_terminates (fun _ => (0 : Nat)) [1, 2, 3] 8 12
     (sondeDataInit 0, decStateInit) (by decide)⟩

/-! ## Reed-Solomon gather/scatter layout -/

/-- Length is preserved by any fold of `List.set` writes. -/
theorem length_foldl_set {α : Type} (g : Nat → Nat) (v : Nat → α) :
    ∀ (is : List Nat) (l : List α),
      (is.foldl (fun acc i => acc.set (g i) (v i)) l).length = l.length
  | [], _ => rfl
  | i :: is, l => by
    rw [List.foldl_cons, length_foldl_set g v is, List.length_set]

/-- A fold of writes at positions `c + i`, `i < n`, read back at `q`. -/
theorem foldl_set_shift_getD {α : Type} (d : α) (c : Nat) (v : Nat → α) :
    ∀ (n : Nat) (l : List α) (q : Nat),
      ((List.range n).foldl (fun acc i => acc.set (c + i) (v i)) l).getD q d
        = if c ≤ q ∧ q < c + n ∧ q < l.length then v (q - c) else l.getD q d
  | 0, l, q => by
    rw [List.range_zero, List.foldl_nil, if_neg]
    omega
  | n + 1, l, q => by
    rw [List.range_succ, List.foldl_append, List.foldl_cons, List.foldl_nil]
    rw [List.getD_eq_getElem?_getD, List.getElem?_set, length_foldl_set]
    by_cases hq : c + n = q
    · rw [if_pos hq]
      by_cases hl : c + n < l.length
      · rw [if_pos hl, Option.getD_some, if_pos (by omega)]
        congr 1
        omega
      · rw [if_neg hl, Option.getD_none, if_neg (by omega)]
        rw [List.getD_eq_getElem?_getD, List.getElem?_eq_none (by omega), Option.getD_none]
    · rw [if_neg hq, ← List.getD_eq_getElem?_getD]
      rw [foldl_set_shift_getD d c v n l q]
      by_cases h1 : c ≤ q ∧ q < c + n ∧ q < l.length
      · rw [if_pos h1, if_pos (by omega)]
      · rw [if_neg h1, if_neg (by omega)]

/-- A fold of writes at positions `i`, `i < n`, read back at `q`. -/
theorem foldl_set_id_getD {α : Type} (d : α) (v : Nat → α) :
    ∀ (n : Nat) (l : List α) (q : Nat),
      ((List.range n).foldl (fun acc i => acc.set i (v i)) l).getD q d
        = if q < n ∧ q < l.length then v q else l.getD q d
  | 0, l, q => by
    rw [List.range_zero, List.foldl_nil, if_neg]
    omega
  | n + 1, l, q => by
    rw [List.range_succ, List.foldl_append, List.foldl_cons, List.foldl_nil]
    rw [List.getD_eq_getElem?_getD, List.getElem?_set, length_foldl_set]
    by_cases hq : n = q
    · rw [if_pos hq]
      by_cases hl : n < l.length
      · rw [if_pos hl, Option.getD_some, if_pos (by omega), hq]
      · rw [if_neg hl, Option.getD_none, if_neg (by omega)]
        rw [List.getD_eq_getElem?_getD, List.getElem?_eq_none (by omega), Option.getD_none]
    · rw [if_neg hq, ← List.getD_eq_getElem?_getD]
      rw [foldl_set_id_getD d v n l q]
      by_cases h1 : q < n ∧ q < l.length
      · rw [if_pos h1, if_pos (by omega)]
      · rw [if_neg h1, if_neg (by omega)]

/-- A fold of writes all missing position `q` leaves it unread. -/
theorem foldl_set_getD_of_ne {α : Type} (d : α) (g : Nat → Nat) (v : Nat → α) (q : Nat) :
    ∀ (is : List Nat) (l : List α), (∀ i ∈ is, g i ≠ q) →
      ((is.foldl (fun acc i => acc.set (g i) (v i)) l)).getD q d = l.getD q d
  | [], _, _ => rfl
  | i :: is, l, h => by
    rw [List.foldl_cons, foldl_set_getD_of_ne d g v q is _ (fun j hj => h j (by simp [hj]))]
    rw [List.getD_eq_getElem?_getD, List.getElem?_set,
      if_neg (h i (by simp)), ← List.getD_eq_getElem?_getD]

/-- `(x :: xs).getD`, split on the index. -/
theorem getD_cons_split {α : Type} (x : α) (xs : List α) (m : Nat) (d : α) :
    (x :: xs).getD m d = if m = 0 then x else xs.getD (m - 1) d := by
  cases m
  · simp
  · simp

/-- The gather of `rsCorrect` as the amended claim describes it,
position by position: symbol `p < chunkLen` of block `block` is data
symbol `INTERLEAVING*p + block - 1` — the frame flag byte when
`INTERLEAVING*p + block = 0` —, positions up to `K` are the zero
padding (at the back of the data section, not the front), and the
tail carries the block's `T` parity symbols. -/
def gatherBlockAmended (fr : RFrame) (chunkLen block : Nat) : List Nat :=
  (List.range RS41_REEDSOLOMON_N).map (fun p =>
    if p < chunkLen then
      (if RS41_REEDSOLOMON_INTERLEAVING * p + block = 0 then fr.flag
       else fr.data.getD (RS41_REEDSOLOMON_INTERLEAVING * p + block - 1) 0)
    else if p < RS41_REEDSOLOMON_K then 0
    else fr.parity.getD ((p - RS41_REEDSOLOMON_K) + RS41_REEDSOLOMON_T * block) 0)

/-- The deinterleave gather as the claim describes it: every
`INTERLEAVING`-th data symbol starting at data offset `block`, the
codeword zero-padded at the front to reach `K` symbols, the block
parity appended.  Spec-words definition for comparison with
`gatherBlock`. -/
def gatherBlockDescribed (fr : RFrame) (chunkLen block : Nat) : List Nat :=
  let pad := RS41_REEDSOLOMON_K - chunkLen
  let base := List.replicate RS41_REEDSOLOMON_N 0
  let withData := (List.range chunkLen).foldl
    (fun acc i =>
      acc.set (pad + i) (fr.data.getD (RS41_REEDSOLOMON_INTERLEAVING * i + block) 0)) base
  (List.range RS41_REEDSOLOMON_T).foldl
    (fun acc i =>
      acc.set (RS41_REEDSOLOMON_K + i)
        (fr.parity.getD (i + RS41_REEDSOLOMON_T * block) 0))
    withData

/-- Concrete frame for the C3 counterexample. -/
def frC3 : RFrame := { flag := 7, data := [1, 2, 3], parity := [] }

/-- C3 counterexample: the deinterleave gather does not start at data
offset `b`.  On this concrete frame the scratch codeword the source
builds for block 0 starts with the frame's FLAG byte (`data[-1]`,
value 7), not with `data[0]` as the claim says; the spec-words gather
(`gatherBlockDescribed`, front-padded, starting at offset `b`) holds 0
at position 0 and differs from the source gather as a whole. -/
theorem gatherBlock_not_at_offset_b :
    (gatherBlock frC3 132 0).getD 0 0 = 7 ∧
    (gatherBlockDescribed frC3 132 0).getD 0 0 = 0 ∧
    gatherBlock frC3 132 0 ≠ gatherBlockDescribed frC3 132 0 := by
  decide


/-- Reading a mapped range at an in-range index. -/
theorem getD_map_range {α : Type} (d : α) (f : Nat → α) (n q : Nat) (hq : q < n) :
    ((List.range n).map f).getD q d = f q := by
  rw [List.getD_eq_getElem _ d (by simpa using hq), List.getElem_map, List.getElem_range]

/-- C3 (amended): the FEC gather/scatter works at data offset `b - 1`,
not `b`, and pads at the back, not the front.  Position by position,
the scratch codeword for block `b` holds data symbol
`INTERLEAVING*i + b - 1` at position `i < chunkLen` — the frame's flag
byte when `INTERLEAVING*i + b = 0` —, zeros from `chunkLen` up to `K`
(the non-extended frame's padding, located between the reduced data
and the parity), and the block's `T` parity symbols after `K`; and the
scatter writes the corrected symbols back to the same positions, block
0's first symbol landing in the flag byte. -/
theorem gatherBlock_includes_flag_and_pads_back (fr : RFrame) (chunkLen block : Nat)
    (blk : List Nat) (h : chunkLen ≤ RS41_REEDSOLOMON_K) :
    gatherBlock fr chunkLen block = gatherBlockAmended fr chunkLen block ∧
    (block = 0 → 0 < chunkLen →
      (scatterBlock fr chunkLen block blk).flag = blk.getD 0 0) := by
  constructor
  · have hlen : (gatherBlock fr chunkLen block).length
        = (gatherBlockAmended fr chunkLen block).length := by
      simp only [gatherBlock, gatherBlockAmended]
      rw [length_foldl_set, length_foldl_set]
      simp
    apply List.ext_getElem hlen
    intro q hq1 hq2
    rw [← List.getD_eq_getElem _ 0 hq1, ← List.getD_eq_getElem _ 0 hq2]
    have hq : q < RS41_REEDSOLOMON_N := by
      have h5 := hq1
      simp only [gatherBlock] at h5
      rw [length_foldl_set, length_foldl_set] at h5
      simpa using h5
    simp only [gatherBlock, gatherBlockAmended]
    rw [foldl_set_shift_getD, foldl_set_id_getD, length_foldl_set]
    simp only [List.length_replicate]
    rw [getD_map_range 0 _ _ q hq]
    by_cases h1 : q < chunkLen
    · rw [if_neg (fun hc => absurd hc.1 (by omega))]
      rw [if_pos ⟨h1, hq⟩, if_pos h1, getD_cons_split]
    · rw [if_neg h1]
      by_cases h2 : q < RS41_REEDSOLOMON_K
      · rw [if_neg (fun hc => absurd hc.1 (by omega))]
        rw [if_neg (fun hc => h1 hc.1), if_pos h2]
        simp
      · have hn : q < RS41_REEDSOLOMON_K + RS41_REEDSOLOMON_T := by
          simp only [RS41_REEDSOLOMON_K, RS41_REEDSOLOMON_T,
            RS41_REEDSOLOMON_N] at hq h2 ⊢
          omega
        rw [if_pos ⟨(by omega), hn, hq⟩, if_neg h2]
  · intro hb hc
    subst hb
    obtain ⟨m, hm⟩ : ∃ m, chunkLen = m + 1 := ⟨chunkLen - 1, by omega⟩
    subst hm
    simp only [scatterBlock]
    rw [List.range_succ_eq_map, List.foldl_cons, List.foldl_map]
    rw [foldl_set_getD_of_ne 0 (fun i => RS41_REEDSOLOMON_INTERLEAVING * (i + 1) + 0)
      (fun i => blk.getD (i + 1) 0) 0 (List.range m) _
      (fun i _ => by simp only [RS41_REEDSOLOMON_INTERLEAVING]; omega)]
    simp only [RS41_REEDSOLOMON_INTERLEAVING, Nat.mul_zero, Nat.zero_add]
    simp [List.set]


/-- Witness for `gatherBlock_includes_flag_and_pads_back` at the
concrete frame `frC3`, `chunkLen = 132`, `block = 0`. -/
theorem gatherBlock_includes_flag_and_pads_back_witness :
    (132 ≤ RS41_REEDSOLOMON_K) ∧
    (gatherBlock frC3 132 0 = gatherBlockAmended frC3 132 0 ∧
    (0 = 0 → 0 < 132 → (scatterBlock frC3 132 0 [9]).flag = [9].getD 0 0)) :=
  ⟨by decide, gatherBlock_includes_flag_and_pads_back frC3 132 0 [9] (by decide)⟩

/-! ## The bit-synchronizing framer (`dsp::Framer::run`)

The accumulator `_rawData` (2×frameLen bytes) is modelled as a list of
bits; `bitpack` and `bitcpy` are declared in the repository but defined
in the missing `utils.h`, so their effect is modelled from the spec
(§4.1): `bitpack` packs incoming bytes at the current bit cursor, and
`bitcpy(dst, src, offset, bits)` copies `bits` bits taken from bit
offset `offset` of `src` to the front of `dst`.  The host
stream-plumbing (`read`, `flush`, `swap`) is outside the model: one
`run` call consumes one input chunk. -/

/-- The two states of the framer (framer.hpp): READ and DEOFFSET. -/
inductive FMode where
  | read : FMode
  | deoffset : FMode
  deriving Repr, DecidableEq

/-- Framer state: control mode, the bit accumulator, the bit cursor
`_dataOffset`, and the last correlation result `_syncOffset`. -/
structure FState where
  mode : FMode
  raw : List Bool
  dataOffset : Nat
  syncOffset : Nat
  deriving Repr, DecidableEq

/-- The eight bits of a byte, most significant first. -/
def byteToBits (b : Nat) : List Bool :=
  (List.range 8).map (fun j => byteBit b j = 1)

/-- Modelled from the spec: the bit stream of a byte chunk, as
`bitpack` appends it at the bit cursor (spec §4.1 step 1). -/
def bytesToBits (l : List Nat) : List Bool :=
  (l.map byteToBits).flatten

/-- A byte read back out of the bit accumulator. -/
def bitsToByte (bits : List Bool) : Nat :=
  bits.foldl (fun a b => 2 * a + (if b then 1 else 0)) 0

/-- The first `n` bytes of the bit accumulator. -/
def bufBytes (raw : List Bool) (n : Nat) : List Nat :=
  (List.range n).map (fun i => bitsToByte ((raw.drop (8 * i)).take 8))

/-- Modelled from the spec: `bitcpy(_rawData, _rawData, s, n)` of the
missing `utils.h` — copy `n` bits taken from bit offset `s` to the
front of the buffer (spec §4.1 step 4's bit-level left shift). -/
def bitcpy (raw : List Bool) (s n : Nat) : List Bool :=
  overwrite raw 0 ((List.range n).map (fun p => raw.getD (s + p) false))

section Framer

variable (syncWord syncLen frameLen : Nat)

/-- Consume `min need count` bytes of the input into the accumulator
at the bit cursor: the `memcpy` + `bitpack` fill step shared by the
READ and DEOFFSET cases (framer.cpp, lines 69-78 and 95-103). -/
def framerFill (need : Nat) (st : FState) (input : List Nat) :
    FState × List Nat :=
  let n := min need input.length
  ({ st with
      raw := overwrite st.raw st.dataOffset (bytesToBits (input.take n)),
      dataOffset := st.dataOffset + 8 * n },
   input.drop n)

/-- The DEOFFSET case of `dsp::Framer::run` (framer.cpp, lines
92-123): fill until `frameLen - (dataOffset - syncOffset)/8` more
bytes are in, suspend (right injection) if the input ran dry,
otherwise shift the buffer left by `syncOffset` bits, emit the
byte-aligned frame, copy the first 8 post-shift bits at offset
`syncOffset` back to the front, and reset the cursor to
`syncOffset mod 8`. -/
def deoffStep (st : FState) (input : List Nat) :
    (List Nat × FState × List Nat) ⊕ FState :=
  let r := framerFill (frameLen - (st.dataOffset - st.syncOffset) / 8) st input
  if r.2.isEmpty then Sum.inr r.1
  else
    let raw2 := bitcpy r.1.raw st.syncOffset (8 * frameLen)
    let frame := bufBytes raw2 frameLen
    let raw3 := bitcpy raw2 st.syncOffset 8
    Sum.inl (frame,
      { mode := FMode.read, raw := raw3, dataOffset := st.syncOffset % 8,
        syncOffset := st.syncOffset }, r.2)

/-- `dsp::Framer::run` (framer.cpp, lines 52-135) on one input chunk,
fuel-driven: each `while (count > 0)` iteration either suspends
(returning the frames emitted so far and the saved state) or emits a
frame and loops.  The READ case falls through into the DEOFFSET code
after correlation, as in the source.  `2*count + 2` fuel always
suffices (see `runLoop_fuel`). -/
def runLoop : Nat → FState → List Nat → List (List Nat) × FState
  | 0, st, _ => ([], st)
  | f + 1, st, input =>
    if input.isEmpty then ([], st)
    else
      match st.mode with
      | FMode.read =>
        let r := framerFill (frameLen - st.dataOffset / 8) st input
        if r.2.isEmpty then ([], r.1)
        else
          let s := (correlateU64 syncWord syncLen (bufBytes r.1.raw frameLen)
            frameLen).1
          let st2 := { r.1 with mode := FMode.deoffset, syncOffset := s }
          match deoffStep frameLen st2 r.2 with
          | Sum.inr st3 => ([], st3)
          | Sum.inl (frame, st3, input2) =>
            let rec1 := runLoop f st3 input2
            (frame :: rec1.1, rec1.2)
      | FMode.deoffset =>
        match deoffStep frameLen st input with
        | Sum.inr st3 => ([], st3)
        | Sum.inl (frame, st3, input2) =>
          let rec1 := runLoop f st3 input2
          (frame :: rec1.1, rec1.2)

/-- One `dsp::Framer::run` call on an input chunk. -/
def framerRun (st : FState) (input : List Nat) :
    List (List Nat) × FState :=
  runLoop syncWord syncLen frameLen (2 * input.length + 2) st input

/-- The state `dsp::Framer::init` leaves: READ mode, an all-zero
`2*frameLen`-byte accumulator, cursor 0. -/
def framerInit : FState :=
  { mode := FMode.read, raw := List.replicate (16 * frameLen) false,
    dataOffset := 0, syncOffset := 0 }

end Framer


theorem overwrite_append {α : Type} :
    ∀ (x y l : List α) (p : Nat),
      overwrite l p (x ++ y) = overwrite (overwrite l p x) (p + x.length) y
  | [], y, l, p => by simp [overwrite]
  | v :: x, y, l, p => by
    rw [List.cons_append]
    show overwrite (l.set p v) (p + 1) (x ++ y) = _
    rw [overwrite_append x y (l.set p v) (p + 1)]
    show _ = overwrite (overwrite (l.set p v) (p + 1) x) (p + (x.length + 1)) y
    congr 1
    omega

theorem bytesToBits_append (a b : List Nat) :
    bytesToBits (a ++ b) = bytesToBits a ++ bytesToBits b := by
  simp [bytesToBits]

theorem bytesToBits_length (l : List Nat) :
    (bytesToBits l).length = 8 * l.length := by
  induction l with
  | nil => rfl
  | cons x xs ih =>
    show (bytesToBits ([x] ++ xs)).length = _
    rw [bytesToBits_append, List.length_append, ih]
    simp [bytesToBits, byteToBits]
    omega

theorem framerFill_nil (need : Nat) (st : FState) :
    framerFill need st [] = (st, []) := by
  simp [framerFill, overwrite]

theorem framerFill_zero (st : FState) (input : List Nat) :
    framerFill 0 st input = (st, input) := by
  simp [framerFill, overwrite]

theorem framerFill_append (need : Nat) (st : FState) (a b : List Nat) :
    framerFill need st (a ++ b)
      = ((framerFill (need - min need a.length) (framerFill need st a).1 b).1,
         (framerFill need st a).2
           ++ (framerFill (need - min need a.length) (framerFill need st a).1 b).2) := by
  simp only [framerFill, List.length_append]
  have hna : min need a.length ≤ a.length := Nat.min_le_right _ _
  have htake : (a ++ b).take (min need (a.length + b.length))
      = a.take (min need a.length) ++ b.take (min (need - min need a.length) b.length) := by
    rw [List.take_append_eq_append_take]
    congr 1
    · by_cases hc : need ≤ a.length
      · rw [Nat.min_eq_left (by omega), Nat.min_eq_left hc]
      · rw [List.take_of_length_le (by omega), List.take_of_length_le (by omega)]
    · congr 1
      omega
  have hdrop : (a ++ b).drop (min need (a.length + b.length))
      = a.drop (min need a.length) ++ b.drop (min (need - min need a.length) b.length) := by
    rw [List.drop_append_eq_append_drop]
    congr 1
    · by_cases hc : need ≤ a.length
      · rw [Nat.min_eq_left (by omega), Nat.min_eq_left hc]
      · rw [List.drop_of_length_le (by omega), List.drop_of_length_le (by omega)]
    · congr 1
      omega
  rw [htake, hdrop, bytesToBits_append, overwrite_append]
  rw [bytesToBits_length, List.length_take, Nat.min_eq_left hna]
  have harith : need ⊓ (a.length + b.length)
      = need ⊓ a.length + (need - need ⊓ a.length) ⊓ b.length := by omega
  rw [harith, Nat.mul_add, Nat.add_assoc]


theorem corrStep_offset_le (w m sl pos tmp j B : Nat) (s : CorrState)
    (hs : s.bestOffset ≤ B) (hp : pos ≤ B) :
    (corrStep w m sl pos tmp j s).bestOffset ≤ B := by
  simp only [corrStep]
  split_ifs <;> simp_all

theorem foldl_corrStep_offset_le (w m sl tmp B i : Nat) :
    ∀ (js : List Nat) (s : CorrState), s.bestOffset ≤ B →
      (∀ j ∈ js, i * 8 + j ≤ B) →
      ((js.foldl (fun st j => corrStep w m sl (i * 8 + j) tmp j st) s)).bestOffset ≤ B
  | [], s, hs, _ => hs
  | j :: js, s, hs, hj => by
    rw [List.foldl_cons]
    exact foldl_corrStep_offset_le w m sl tmp B i js _
      (corrStep_offset_le w m sl _ tmp j B s hs (hj j (by simp)))
      (fun j2 h2 => hj j2 (by simp [h2]))

theorem corrByte_offset_le (w m sl i tmp B : Nat) (s : CorrState)
    (hs : s.bestOffset ≤ B) (hi : i * 8 + 7 ≤ B) :
    (corrByte w m sl i tmp s).bestOffset ≤ B := by
  simp only [corrByte]
  exact foldl_corrStep_offset_le w m sl tmp B i (List.range 8) s hs
    (fun j hj => by
      have : j < 8 := List.mem_range.mp hj
      omega)

theorem foldl_corrByte_offset_le (w m sl B : Nat) (fr : List Nat) :
    ∀ (l : List Nat) (s : CorrState), s.bestOffset ≤ B →
      (∀ i ∈ l, i * 8 + 7 ≤ B) →
      ((l.foldl (fun st i => corrByte w m sl i (fr.getD (sl + i) 0) st) s)).bestOffset ≤ B
  | [], s, hs, _ => hs
  | i :: l, s, hs, hi => by
    rw [List.foldl_cons]
    exact foldl_corrByte_offset_le w m sl B fr l _
      (corrByte_offset_le w m sl i _ B s hs (hi i (by simp)))
      (fun i2 h2 => hi i2 (by simp [h2]))

theorem correlateU64_offset_le (w sl : Nat) (fr : List Nat) (len : Nat) :
    (correlateU64 w sl fr len).1 ≤ 8 * len := by
  simp only [correlateU64]
  split <;> split
  · simp
  · exact foldl_corrByte_offset_le _ _ sl (8 * len) fr (List.range (len - sl)) _
      (by simp)
      (fun i hi => by
        have : i < len - sl := List.mem_range.mp hi
        omega)
  · simp
  · exact foldl_corrByte_offset_le _ _ sl (8 * len) fr (List.range (len - sl)) _
      (by simp)
      (fun i hi => by
        have : i < len - sl := List.mem_range.mp hi
        omega)


theorem deoffCont_fuel (hF : 0 < frameLen) (n f1 g1 : Nat)
    (st : FState) (inp : List Nat)
    (ih : ∀ (st2 : FState) (inp2 : List Nat),
      2 * inp2.length + (if 8 * frameLen ≤ st2.dataOffset then 1 else 0) + 1 ≤ n →
      runLoop syncWord syncLen frameLen f1 st2 inp2
        = runLoop syncWord syncLen frameLen g1 st2 inp2)
    (hne : inp ≠ [])
    (hb : 2 * inp.length + (if 8 * frameLen ≤ st.dataOffset then 1 else 0) + 1 ≤ n + 1) :
    (match deoffStep frameLen st inp with
     | Sum.inr st3 => (([] : List (List Nat)), st3)
     | Sum.inl (frame, st3, input2) =>
       let rec1 := runLoop syncWord syncLen frameLen f1 st3 input2
       (frame :: rec1.1, rec1.2))
    = (match deoffStep frameLen st inp with
       | Sum.inr st3 => (([] : List (List Nat)), st3)
       | Sum.inl (frame, st3, input2) =>
         let rec1 := runLoop syncWord syncLen frameLen g1 st3 input2
         (frame :: rec1.1, rec1.2)) := by
  simp only [deoffStep]
  by_cases hre :
      (framerFill (frameLen - (st.dataOffset - st.syncOffset) / 8) st inp).2.isEmpty
  · rw [if_pos hre]
  · rw [if_neg hre]
    have hlen2 : (framerFill (frameLen - (st.dataOffset - st.syncOffset) / 8) st inp).2.length
        = inp.length - min (frameLen - (st.dataOffset - st.syncOffset) / 8) inp.length := by
      simp [framerFill]
    have hmu : 2 * (framerFill (frameLen - (st.dataOffset - st.syncOffset) / 8) st inp).2.length
        + (if 8 * frameLen ≤ st.syncOffset % 8 then 1 else 0) + 1 ≤ n := by
      rw [if_neg (by have := Nat.mod_lt st.syncOffset (show 0 < 8 by norm_num); omega)]
      by_cases hsame :
          (framerFill (frameLen - (st.dataOffset - st.syncOffset) / 8) st inp).2.length
            = inp.length
      · have hpos : 0 < inp.length := List.length_pos.mpr hne
        have hneed : frameLen - (st.dataOffset - st.syncOffset) / 8 = 0 := by omega
        have hd : 8 * frameLen ≤ st.dataOffset := by
          have h8 : frameLen ≤ (st.dataOffset - st.syncOffset) / 8 := by omega
          have h9 : 8 * frameLen ≤ st.dataOffset - st.syncOffset := by
            have := Nat.div_mul_le_self (st.dataOffset - st.syncOffset) 8
            calc 8 * frameLen ≤ 8 * ((st.dataOffset - st.syncOffset) / 8) := by omega
              _ ≤ st.dataOffset - st.syncOffset := by
                  rw [Nat.mul_comm]
                  exact Nat.div_mul_le_self _ 8
          omega
        rw [if_pos hd] at hb
        omega
      · have : (framerFill (frameLen - (st.dataOffset - st.syncOffset) / 8) st inp).2.length
            < inp.length := by omega
        omega
    dsimp only
    have harg := ih
      (FState.mk FMode.read
        (bitcpy (bitcpy (framerFill
            (frameLen - (st.dataOffset - st.syncOffset) / 8) st inp).1.raw
          st.syncOffset (8 * frameLen)) st.syncOffset 8)
        (st.syncOffset % 8) st.syncOffset)
      (framerFill (frameLen - (st.dataOffset - st.syncOffset) / 8) st inp).2 hmu
    rw [harg]


theorem runLoop_fuel (hF : 0 < frameLen) : ∀ (n f g : Nat) (st : FState) (inp : List Nat),
    2 * inp.length + (if 8 * frameLen ≤ st.dataOffset then 1 else 0) + 1 ≤ n →
    n ≤ f → n ≤ g →
    runLoop syncWord syncLen frameLen f st inp
      = runLoop syncWord syncLen frameLen g st inp := by
  intro n
  induction n with
  | zero =>
    intro f g st inp hmu hf hg
    omega
  | succ n ih =>
    intro f g st inp hmu hf hg
    obtain ⟨f1, rfl⟩ : ∃ f1, f = f1 + 1 := ⟨f - 1, by omega⟩
    obtain ⟨g1, rfl⟩ : ∃ g1, g = g1 + 1 := ⟨g - 1, by omega⟩
    have ihn : ∀ (st2 : FState) (inp2 : List Nat),
        2 * inp2.length + (if 8 * frameLen ≤ st2.dataOffset then 1 else 0) + 1 ≤ n →
        runLoop syncWord syncLen frameLen f1 st2 inp2
          = runLoop syncWord syncLen frameLen g1 st2 inp2 :=
      fun st2 inp2 h2 => ih f1 g1 st2 inp2 h2 (by omega) (by omega)
    rw [runLoop, runLoop]
    split_ifs with he
    · rfl
    · have hne : inp ≠ [] := fun hc => by simp [hc] at he
      cases st with
      | mk mode raw d s0 =>
        cases mode with
        | read =>
          dsimp only
          split_ifs with hre
          · rfl
          · have hne2 : (framerFill (frameLen - d / 8)
                (FState.mk FMode.read raw d s0) inp).2 ≠ [] := by
              intro hc
              rw [hc] at hre
              simp at hre
            have hlen : (framerFill (frameLen - d / 8)
                (FState.mk FMode.read raw d s0) inp).2.length
                = inp.length - min (frameLen - d / 8) inp.length := by
              simp [framerFill]
            have hb2 : 2 * (framerFill (frameLen - d / 8)
                  (FState.mk FMode.read raw d s0) inp).2.length
                + (if 8 * frameLen ≤ d + 8 * min (frameLen - d / 8) inp.length
                   then 1 else 0) + 1 ≤ n + 1 := by
              have hpos : 0 < inp.length := List.length_pos.mpr hne
              by_cases hc : min (frameLen - d / 8) inp.length = 0
              · have hneed0 : frameLen - d / 8 = 0 := by omega
                have hd8 : 8 * frameLen ≤ d := by
                  have h9 : frameLen ≤ d / 8 := by omega
                  have h10 : 8 * (d / 8) ≤ d := by
                    rw [Nat.mul_comm]
                    exact Nat.div_mul_le_self d 8
                  omega
                rw [if_pos hd8] at hmu
                rw [hc, if_pos (by omega)]
                omega
              · rw [hlen]
                split_ifs <;> omega
            exact deoffCont_fuel hF n f1 g1 _ _ ihn hne2 hb2
        | deoffset =>
          dsimp only
          exact deoffCont_fuel hF n f1 g1 _ _ ihn hne hmu


def framerWf (st : FState) : Prop :=
  st.mode = FMode.deoffset → st.syncOffset ≤ st.dataOffset

theorem runLoop_nil (fuel : Nat) (st : FState) :
    runLoop syncWord syncLen frameLen fuel st [] = ([], st) := by
  cases fuel <;> simp [runLoop]

theorem deoffStep_append_inl (st : FState) (i b : List Nat) (fr : List Nat)
    (st3 : FState) (i2 : List Nat)
    (h : deoffStep frameLen st i = Sum.inl (fr, st3, i2)) :
    deoffStep frameLen st (i ++ b) = Sum.inl (fr, st3, i2 ++ b) := by
  simp only [deoffStep] at h ⊢
  by_cases hre : (framerFill (frameLen - (st.dataOffset - st.syncOffset) / 8) st i).2.isEmpty
  · rw [if_pos hre] at h
    exact absurd h (by simp)
  · rw [if_neg hre] at h
    have hxf : (framerFill (frameLen - (st.dataOffset - st.syncOffset) / 8) st i).2.isEmpty
        = false := by
      cases hb2 : (framerFill (frameLen - (st.dataOffset - st.syncOffset) / 8) st i).2.isEmpty
      · rfl
      · exact absurd hb2 hre
    have hlt : min (frameLen - (st.dataOffset - st.syncOffset) / 8) i.length < i.length := by
      rcases Nat.lt_or_ge (min (frameLen - (st.dataOffset - st.syncOffset) / 8) i.length)
        i.length with hl | hg
      · exact hl
      · have hmin : min (frameLen - (st.dataOffset - st.syncOffset) / 8) i.length
            = i.length := by
          have := Nat.min_le_right (frameLen - (st.dataOffset - st.syncOffset) / 8) i.length
          omega
        have : (framerFill (frameLen - (st.dataOffset - st.syncOffset) / 8) st i).2.isEmpty
            = true := by
          show (i.drop _).isEmpty = true
          rw [hmin]
          simp
        rw [this] at hxf
        exact absurd hxf (by simp)
    have hz : frameLen - (st.dataOffset - st.syncOffset) / 8
        - min (frameLen - (st.dataOffset - st.syncOffset) / 8) i.length = 0 := by
      omega
    have hfst : (framerFill (frameLen - (st.dataOffset - st.syncOffset) / 8) st (i ++ b)).1
        = (framerFill (frameLen - (st.dataOffset - st.syncOffset) / 8) st i).1 := by
      rw [framerFill_append, hz, framerFill_zero]
    have hsnd : (framerFill (frameLen - (st.dataOffset - st.syncOffset) / 8) st (i ++ b)).2
        = (framerFill (frameLen - (st.dataOffset - st.syncOffset) / 8) st i).2 ++ b := by
      rw [framerFill_append, hz, framerFill_zero]
    have hxne : (framerFill (frameLen - (st.dataOffset - st.syncOffset) / 8) st i).2 ≠ [] := by
      intro hc
      rw [hc] at hxf
      simp at hxf
    rw [hfst, hsnd]
    rw [if_neg (fun hcond =>
      hxne (List.append_eq_nil.mp (List.isEmpty_iff.mp hcond)).1)]
    rw [Sum.inl.injEq, Prod.mk.injEq, Prod.mk.injEq] at h ⊢
    exact ⟨h.1, h.2.1, by rw [h.2.2]⟩

theorem deoffStep_append_inr (st : FState)
    (hwf : st.syncOffset ≤ st.dataOffset) (i b : List Nat) (st3 : FState)
    (h : deoffStep frameLen st i = Sum.inr st3) :
    deoffStep frameLen st (i ++ b) = deoffStep frameLen st3 b := by
  have hfillst : st3 = (framerFill (frameLen - (st.dataOffset - st.syncOffset) / 8) st i).1
      ∧ (framerFill (frameLen - (st.dataOffset - st.syncOffset) / 8) st i).2.isEmpty
        = true := by
    simp only [deoffStep] at h
    by_cases hre :
        (framerFill (frameLen - (st.dataOffset - st.syncOffset) / 8) st i).2.isEmpty
    · rw [if_pos hre] at h
      exact ⟨(Sum.inr.injEq _ _).mp h.symm ▸ rfl, hre⟩
    · rw [if_neg hre] at h
      exact absurd h (by simp)
  obtain ⟨hst3, hemp⟩ := hfillst
  have hmin : min (frameLen - (st.dataOffset - st.syncOffset) / 8) i.length = i.length := by
    have h2 : (i.drop (min (frameLen - (st.dataOffset - st.syncOffset) / 8) i.length)).isEmpty
        = true := hemp
    rw [List.isEmpty_iff] at h2
    have h3 := congrArg List.length h2
    rw [List.length_drop] at h3
    have := Nat.min_le_right (frameLen - (st.dataOffset - st.syncOffset) / 8) i.length
    simp at h3
    omega
  have hli : i.length ≤ frameLen - (st.dataOffset - st.syncOffset) / 8 := by omega
  -- the resumed need equals the remaining need
  have hd3 : st3.dataOffset = st.dataOffset + 8 * i.length := by
    rw [hst3]
    show st.dataOffset + 8 * min _ i.length = _
    rw [hmin]
  have hs3 : st3.syncOffset = st.syncOffset := by rw [hst3]; rfl
  have hneed3 : frameLen - (st3.dataOffset - st3.syncOffset) / 8
      = frameLen - (st.dataOffset - st.syncOffset) / 8 - i.length := by
    rw [hd3, hs3]
    have hdiv : (st.dataOffset + 8 * i.length - st.syncOffset) / 8
        = (st.dataOffset - st.syncOffset) / 8 + i.length := by
      have h4 : st.dataOffset + 8 * i.length - st.syncOffset
          = st.dataOffset - st.syncOffset + 8 * i.length := by omega
      rw [h4, Nat.add_mul_div_left _ _ (by norm_num : (0:Nat) < 8)]
    rw [hdiv]
    omega
  simp only [deoffStep]
  rw [framerFill_append]
  have hz2 : frameLen - (st.dataOffset - st.syncOffset) / 8
      - min (frameLen - (st.dataOffset - st.syncOffset) / 8) i.length
      = frameLen - (st.dataOffset - st.syncOffset) / 8 - i.length := by
    rw [hmin]
  rw [hz2, ← hneed3, ← hst3]
  have hempnil : (framerFill (frameLen - (st.dataOffset - st.syncOffset) / 8) st i).2
      = [] := List.isEmpty_iff.mp hemp
  rw [hempnil, List.nil_append, hs3]


theorem deoffStep_inl_char (st : FState) (i : List Nat) (fr : List Nat)
    (st3 : FState) (i2 : List Nat)
    (h : deoffStep frameLen st i = Sum.inl (fr, st3, i2)) :
    st3.mode = FMode.read ∧ st3.dataOffset = st.syncOffset % 8
    ∧ st3.syncOffset = st.syncOffset ∧ i2.length ≤ i.length
    ∧ (i2.length = i.length → i ≠ [] →
        frameLen ≤ (st.dataOffset - st.syncOffset) / 8) := by
  simp only [deoffStep] at h
  by_cases hre : (framerFill (frameLen - (st.dataOffset - st.syncOffset) / 8) st i).2.isEmpty
  · rw [if_pos hre] at h
    exact absurd h (by simp)
  · rw [if_neg hre] at h
    rw [Sum.inl.injEq, Prod.mk.injEq, Prod.mk.injEq] at h
    obtain ⟨-, hst3, hi2⟩ := h
    refine ⟨by rw [← hst3], by rw [← hst3], by rw [← hst3], ?_, ?_⟩
    · rw [← hi2]
      show (i.drop _).length ≤ i.length
      rw [List.length_drop]
      omega
    · intro hlen hne
      rw [← hi2] at hlen
      have h4 : (i.drop (min (frameLen - (st.dataOffset - st.syncOffset) / 8)
          i.length)).length = i.length := hlen
      rw [List.length_drop] at h4
      have h5 : 0 < i.length := List.length_pos.mpr hne
      have h6 : min (frameLen - (st.dataOffset - st.syncOffset) / 8) i.length = 0 := by
        omega
      omega

theorem deoffStep_inr_char (st : FState) (i : List Nat) (st3 : FState)
    (h : deoffStep frameLen st i = Sum.inr st3) :
    st3.mode = st.mode ∧ st3.syncOffset = st.syncOffset
    ∧ st.dataOffset ≤ st3.dataOffset := by
  simp only [deoffStep] at h
  by_cases hre : (framerFill (frameLen - (st.dataOffset - st.syncOffset) / 8) st i).2.isEmpty
  · rw [if_pos hre] at h
    have hst3 : st3 = (framerFill (frameLen - (st.dataOffset - st.syncOffset) / 8) st i).1 :=
      ((Sum.inr.injEq _ _).mp h).symm
    refine ⟨by rw [hst3]; rfl, by rw [hst3]; rfl, ?_⟩
    rw [hst3]
    show st.dataOffset ≤ st.dataOffset + 8 * _
    omega
  · rw [if_neg hre] at h
    exact absurd h (by simp)


theorem deoffStep_nil (st : FState) : deoffStep frameLen st [] = Sum.inr st := by
  simp [deoffStep, framerFill_nil]

theorem runLoop_append_deoff (hF : 0 < frameLen) (n f1 : Nat) (st : FState)
    (i b : List Nat)
    (hwf2 : st.syncOffset ≤ st.dataOffset)
    (hmode : st.mode = FMode.deoffset)
    (hi : i ≠ [])
    (hbudget : 2 * (i.length + b.length)
      + (if 8 * frameLen ≤ st.dataOffset then 1 else 0) + 1 ≤ n + 1)
    (hfuel : n ≤ f1)
    (ihn : ∀ (st2 : FState) (a2 : List Nat), framerWf st2 →
      2 * (a2 ++ b).length + (if 8 * frameLen ≤ st2.dataOffset then 1 else 0) + 1 ≤ n →
      runLoop syncWord syncLen frameLen f1 st2 (a2 ++ b)
        = ((runLoop syncWord syncLen frameLen f1 st2 a2).1
            ++ (runLoop syncWord syncLen frameLen f1
                (runLoop syncWord syncLen frameLen f1 st2 a2).2 b).1,
           (runLoop syncWord syncLen frameLen f1
            (runLoop syncWord syncLen frameLen f1 st2 a2).2 b).2)) :
    runLoop syncWord syncLen frameLen (f1 + 1) st (i ++ b)
      = ((runLoop syncWord syncLen frameLen (f1 + 1) st i).1
          ++ (runLoop syncWord syncLen frameLen (f1 + 1)
              (runLoop syncWord syncLen frameLen (f1 + 1) st i).2 b).1,
         (runLoop syncWord syncLen frameLen (f1 + 1)
          (runLoop syncWord syncLen frameLen (f1 + 1) st i).2 b).2) := by
  obtain ⟨mo, raw, d, s0⟩ := st
  simp only at hmode
  subst hmode
  have hiBne : ((i ++ b).isEmpty) = false := by
    cases i with
    | nil => exact absurd rfl hi
    | cons x xs => simp
  have hine : (i.isEmpty) = false := by
    cases i with
    | nil => exact absurd rfl hi
    | cons x xs => simp
  rw [runLoop, if_neg (by rw [hiBne]; simp)]
  have hc1 : runLoop syncWord syncLen frameLen (f1 + 1)
      (FState.mk FMode.deoffset raw d s0) i
      = (match deoffStep frameLen (FState.mk FMode.deoffset raw d s0) i with
         | Sum.inr st3 => (([] : List (List Nat)), st3)
         | Sum.inl (frame, st3, input2) =>
           let rec1 := runLoop syncWord syncLen frameLen f1 st3 input2
           (frame :: rec1.1, rec1.2)) := by
    rw [runLoop, if_neg (by rw [hine]; simp)]
  rw [hc1]
  dsimp only
  rcases hd : deoffStep frameLen (FState.mk FMode.deoffset raw d s0) i
    with ⟨fr, st3, i2⟩ | st3
  · -- a frame was emitted while consuming i
    rw [deoffStep_append_inl _ i b fr st3 i2 hd]
    dsimp only
    obtain ⟨hm3, hd3, hs3, hlen3, hzero3⟩ := deoffStep_inl_char _ i fr st3 i2 hd
    have hwf3 : framerWf st3 := fun hc => by rw [hm3] at hc; cases hc
    have hflag3 : ¬ 8 * frameLen ≤ st3.dataOffset := by
      rw [hd3]
      have := Nat.mod_lt s0 (show 0 < 8 by norm_num)
      omega
    have hmu3 : 2 * (i2 ++ b).length
        + (if 8 * frameLen ≤ st3.dataOffset then 1 else 0) + 1 ≤ n := by
      rw [if_neg hflag3, List.length_append]
      by_cases hsame : i2.length = i.length
      · have h8 : frameLen ≤ (d - s0) / 8 := hzero3 hsame hi
        have h9 : 8 * frameLen ≤ d := by
          have h10 : 8 * ((d - s0) / 8) ≤ d - s0 := by
            rw [Nat.mul_comm]
            exact Nat.div_mul_le_self _ 8
          omega
        rw [if_pos h9] at hbudget
        omega
      · have : i2.length < i.length := by omega
        split_ifs at hbudget <;> omega
    rw [ihn st3 i2 hwf3 hmu3]
    have hfb : runLoop syncWord syncLen frameLen (f1 + 1)
        (runLoop syncWord syncLen frameLen f1 st3 i2).2 b
        = runLoop syncWord syncLen frameLen f1
            (runLoop syncWord syncLen frameLen f1 st3 i2).2 b := by
      apply runLoop_fuel hF (2 * b.length + 2)
      · split_ifs <;> omega
      · have hil : 0 < i.length := List.length_pos.mpr hi
        split_ifs at hbudget <;> omega
      · have hil : 0 < i.length := List.length_pos.mpr hi
        split_ifs at hbudget <;> omega
    rw [hfb]
    simp
  · -- i was exhausted without completing the frame: the next call resumes
    rw [deoffStep_append_inr _ hwf2 i b st3 hd]
    dsimp only
    obtain ⟨hm3, hs3, hd3⟩ := deoffStep_inr_char _ i st3 hd
    cases b with
    | nil =>
      rw [deoffStep_nil, runLoop_nil]
      simp
    | cons b0 btl =>
      have hc2 : runLoop syncWord syncLen frameLen (f1 + 1) st3 (b0 :: btl)
          = (match deoffStep frameLen st3 (b0 :: btl) with
             | Sum.inr st4 => (([] : List (List Nat)), st4)
             | Sum.inl (frame, st4, input2) =>
               let rec1 := runLoop syncWord syncLen frameLen f1 st4 input2
               (frame :: rec1.1, rec1.2)) := by
        rw [runLoop, if_neg (by simp)]
        obtain ⟨mo3, raw3, d3, s3⟩ := st3
        simp only at hm3
        rw [hm3]
      rw [hc2]
      rcases hd2 : deoffStep frameLen st3 (b0 :: btl) with ⟨fr2, st4, i4⟩ | st4
      · dsimp only
        simp
      · dsimp only
        simp


theorem runLoop_read_resume (f1 : Nat) (raw : List Bool) (d s0 : Nat)
    (a b : List Nat) (ha : a ≠ [])
    (hAe : (framerFill (frameLen - d / 8) (FState.mk FMode.read raw d s0) a).2 = []) :
    runLoop syncWord syncLen frameLen (f1 + 1) (FState.mk FMode.read raw d s0) (a ++ b)
      = runLoop syncWord syncLen frameLen (f1 + 1) (framerFill (frameLen - d / 8) (FState.mk FMode.read raw d s0) a).1 b := by
  have habne : ¬(a.isEmpty = true) := fun hc => ha (List.isEmpty_iff.mp hc)
  have hAe2 : (framerFill (frameLen - d / 8) (FState.mk FMode.read raw d s0) a).2.isEmpty = true := by
    rw [hAe]
    rfl
  have hminA : min (frameLen - d / 8) a.length = a.length := by
    have h2 : (a.drop (min (frameLen - d / 8) a.length)).length = 0 := by
      have h3 : a.drop (min (frameLen - d / 8) a.length) = [] := hAe
      rw [h3]
      rfl
    rw [List.length_drop] at h2
    have h4 := Nat.min_le_right (frameLen - d / 8) a.length
    omega
  cases b with
  | nil =>
    rw [List.append_nil, runLoop_nil]
    rw [runLoop, if_neg habne]
    dsimp only
    rw [if_pos hAe2]
  | cons b0 btl =>
    have hbne : ¬((b0 :: btl).isEmpty = true) := by simp
    have hcombne : ¬((a ++ b0 :: btl).isEmpty = true) := by
      simp [List.isEmpty_iff]
    have hfill0 : (framerFill (frameLen - d / 8) (FState.mk FMode.read raw d s0) a).1
        = FState.mk FMode.read
            (overwrite raw d (bytesToBits (a.take (min (frameLen - d / 8) a.length))))
            (d + 8 * min (frameLen - d / 8) a.length) s0 := rfl
    rw [hminA] at hfill0
    have hfstC : (framerFill (frameLen - d / 8) (FState.mk FMode.read raw d s0) (a ++ b0 :: btl)).1
        = (framerFill (frameLen - d / 8 - a.length) (framerFill (frameLen - d / 8) (FState.mk FMode.read raw d s0) a).1 (b0 :: btl)).1 := by
      rw [framerFill_append, hminA]
    have hsndC : (framerFill (frameLen - d / 8) (FState.mk FMode.read raw d s0) (a ++ b0 :: btl)).2
        = (framerFill (frameLen - d / 8 - a.length) (framerFill (frameLen - d / 8) (FState.mk FMode.read raw d s0) a).1 (b0 :: btl)).2 := by
      rw [framerFill_append, hminA, hAe, List.nil_append]
    have hneedD : frameLen - (d + 8 * a.length) / 8 = frameLen - d / 8 - a.length := by
      omega
    rw [runLoop, if_neg hcombne]
    dsimp only
    rw [hfstC, hsndC, hfill0]
    conv_rhs => rw [runLoop]
    rw [if_neg hbne]
    dsimp only
    rw [hneedD]

theorem runLoop_append (hF : 0 < frameLen) : ∀ (n f : Nat) (st : FState) (a b : List Nat),
    framerWf st →
    2 * (a ++ b).length + (if 8 * frameLen ≤ st.dataOffset then 1 else 0) + 1 ≤ n →
    n ≤ f →
    runLoop syncWord syncLen frameLen f st (a ++ b)
      = ((runLoop syncWord syncLen frameLen f st a).1
          ++ (runLoop syncWord syncLen frameLen f
              (runLoop syncWord syncLen frameLen f st a).2 b).1,
         (runLoop syncWord syncLen frameLen f
          (runLoop syncWord syncLen frameLen f st a).2 b).2) := by
  intro n
  induction n with
  | zero =>
    intro f st a b hwf hmu hf
    omega
  | succ n ih =>
    intro f st a b hwf hmu hf
    obtain ⟨f1, rfl⟩ : ∃ f1, f = f1 + 1 := ⟨f - 1, by omega⟩
    have ihn : ∀ (st2 : FState) (a2 : List Nat), framerWf st2 →
        2 * (a2 ++ b).length + (if 8 * frameLen ≤ st2.dataOffset then 1 else 0) + 1 ≤ n →
        runLoop syncWord syncLen frameLen f1 st2 (a2 ++ b)
          = ((runLoop syncWord syncLen frameLen f1 st2 a2).1
              ++ (runLoop syncWord syncLen frameLen f1
                  (runLoop syncWord syncLen frameLen f1 st2 a2).2 b).1,
             (runLoop syncWord syncLen frameLen f1
              (runLoop syncWord syncLen frameLen f1 st2 a2).2 b).2) :=
      fun st2 a2 h1 h2 => ih f1 st2 a2 b h1 h2 (by omega)
    cases a with
    | nil =>
      rw [List.nil_append, runLoop_nil]
      simp
    | cons a0 atl =>
      rw [List.length_append] at hmu
      obtain ⟨mo, raw, d, s0⟩ := st
      replace hmu : 2 * ((a0 :: atl).length + b.length)
          + (if 8 * frameLen ≤ d then 1 else 0) + 1 ≤ n + 1 := hmu
      cases mo with
      | deoffset =>
        exact runLoop_append_deoff hF n f1 _ (a0 :: atl) b (hwf rfl) rfl (by simp)
          hmu (by omega) ihn
      | read =>
        by_cases hAe : (framerFill (frameLen - d / 8) (FState.mk FMode.read raw d s0) (a0 :: atl)).2.isEmpty
        · have hAnil : (framerFill (frameLen - d / 8) (FState.mk FMode.read raw d s0) (a0 :: atl)).2 = [] := List.isEmpty_iff.mp hAe
          have hc1 : runLoop syncWord syncLen frameLen (f1 + 1) (FState.mk FMode.read raw d s0) (a0 :: atl)
              = ([], (framerFill (frameLen - d / 8) (FState.mk FMode.read raw d s0) (a0 :: atl)).1) := by
            rw [runLoop, if_neg (by simp)]
            dsimp only
            rw [if_pos hAe]
          rw [hc1]
          dsimp only
          rw [List.nil_append]
          rw [runLoop_read_resume f1 raw d s0 (a0 :: atl) b (by simp) hAnil]
        · have hAne : (framerFill (frameLen - d / 8) (FState.mk FMode.read raw d s0) (a0 :: atl)).2 ≠ [] := fun hc => by
            rw [hc] at hAe
            simp at hAe
          have hltA : min (frameLen - d / 8) (a0 :: atl).length < (a0 :: atl).length := by
            rcases Nat.lt_or_ge (min (frameLen - d / 8) (a0 :: atl).length)
              (a0 :: atl).length with hl | hg
            · exact hl
            · exfalso
              apply hAne
              show ((a0 :: atl).drop (min (frameLen - d / 8) (a0 :: atl).length)) = []
              have hmin : min (frameLen - d / 8) (a0 :: atl).length
                  = (a0 :: atl).length := by
                have := Nat.min_le_right (frameLen - d / 8) (a0 :: atl).length
                omega
              rw [hmin]
              simp
          have hz : frameLen - d / 8
              - min (frameLen - d / 8) (a0 :: atl).length = 0 := by omega
          have hfstC : (framerFill (frameLen - d / 8) (FState.mk FMode.read raw d s0) ((a0 :: atl) ++ b)).1
              = (framerFill (frameLen - d / 8) (FState.mk FMode.read raw d s0) (a0 :: atl)).1 := by
            rw [framerFill_append, hz, framerFill_zero]
          have hsndC : (framerFill (frameLen - d / 8) (FState.mk FMode.read raw d s0) ((a0 :: atl) ++ b)).2
              = (framerFill (frameLen - d / 8) (FState.mk FMode.read raw d s0) (a0 :: atl)).2 ++ b := by
            rw [framerFill_append, hz, framerFill_zero]
          have hcombne : ¬(((framerFill (frameLen - d / 8) (FState.mk FMode.read raw d s0) (a0 :: atl)).2 ++ b).isEmpty = true) := fun hc =>
            hAne (List.append_eq_nil.mp (List.isEmpty_iff.mp hc)).1
          have hc1 : runLoop syncWord syncLen frameLen (f1 + 1) (FState.mk FMode.read raw d s0) (a0 :: atl)
              = runLoop syncWord syncLen frameLen (f1 + 1) (FState.mk FMode.deoffset (framerFill (frameLen - d / 8) (FState.mk FMode.read raw d s0) (a0 :: atl)).1.raw (framerFill (frameLen - d / 8) (FState.mk FMode.read raw d s0) (a0 :: atl)).1.dataOffset (correlateU64 syncWord syncLen (bufBytes (framerFill (frameLen - d / 8) (FState.mk FMode.read raw d s0) (a0 :: atl)).1.raw frameLen) frameLen).1) (framerFill (frameLen - d / 8) (FState.mk FMode.read raw d s0) (a0 :: atl)).2 := by
            rw [runLoop, if_neg (by simp)]
            dsimp only
            rw [if_neg hAe]
            conv_rhs => rw [runLoop]
            rw [if_neg hAe]
          have hcomb : runLoop syncWord syncLen frameLen (f1 + 1) (FState.mk FMode.read raw d s0) ((a0 :: atl) ++ b)
              = runLoop syncWord syncLen frameLen (f1 + 1) (FState.mk FMode.deoffset (framerFill (frameLen - d / 8) (FState.mk FMode.read raw d s0) (a0 :: atl)).1.raw (framerFill (frameLen - d / 8) (FState.mk FMode.read raw d s0) (a0 :: atl)).1.dataOffset (correlateU64 syncWord syncLen (bufBytes (framerFill (frameLen - d / 8) (FState.mk FMode.read raw d s0) (a0 :: atl)).1.raw frameLen) frameLen).1) ((framerFill (frameLen - d / 8) (FState.mk FMode.read raw d s0) (a0 :: atl)).2 ++ b) := by
            rw [runLoop, if_neg (by simp)]
            dsimp only
            rw [hfstC, hsndC]
            rw [if_neg hcombne]
            conv_rhs => rw [runLoop]
            rw [if_neg hcombne]
          rw [hcomb, hc1]
          have hsle := correlateU64_offset_le syncWord syncLen
            (bufBytes (framerFill (frameLen - d / 8) (FState.mk FMode.read raw d s0) (a0 :: atl)).1.raw frameLen) frameLen
          have hdA : (framerFill (frameLen - d / 8) (FState.mk FMode.read raw d s0) (a0 :: atl)).1.dataOffset
              = d + 8 * min (frameLen - d / 8) (a0 :: atl).length := rfl
          refine runLoop_append_deoff hF n f1 (FState.mk FMode.deoffset (framerFill (frameLen - d / 8) (FState.mk FMode.read raw d s0) (a0 :: atl)).1.raw (framerFill (frameLen - d / 8) (FState.mk FMode.read raw d s0) (a0 :: atl)).1.dataOffset (correlateU64 syncWord syncLen (bufBytes (framerFill (frameLen - d / 8) (FState.mk FMode.read raw d s0) (a0 :: atl)).1.raw frameLen) frameLen).1) ((framerFill (frameLen - d / 8) (FState.mk FMode.read raw d s0) (a0 :: atl)).2) b ?_ rfl hAne ?_
            (by omega) ihn
          · show (correlateU64 syncWord syncLen (bufBytes (framerFill (frameLen - d / 8) (FState.mk FMode.read raw d s0) (a0 :: atl)).1.raw frameLen) frameLen).1 ≤ (framerFill (frameLen - d / 8) (FState.mk FMode.read raw d s0) (a0 :: atl)).1.dataOffset
            rw [hdA]
            omega
          · show 2 * ((framerFill (frameLen - d / 8) (FState.mk FMode.read raw d s0) (a0 :: atl)).2.length + b.length)
              + (if 8 * frameLen ≤ (framerFill (frameLen - d / 8) (FState.mk FMode.read raw d s0) (a0 :: atl)).1.dataOffset then 1 else 0) + 1 ≤ n + 1
            have hlen2 : (framerFill (frameLen - d / 8) (FState.mk FMode.read raw d s0) (a0 :: atl)).2.length
                = (a0 :: atl).length - min (frameLen - d / 8) (a0 :: atl).length := by
              show ((a0 :: atl).drop (min (frameLen - d / 8) (a0 :: atl).length)).length = _
              rw [List.length_drop]
            rw [hlen2, hdA]
            split_ifs at hmu ⊢ <;> omega

/-- C9: `dsp::Framer::run` is insensitive to how the byte stream is
chunked: one call on `a ++ b` emits exactly the frames of a call on `a`
followed by a call on `b` resumed from the carried state, in the same
order, and leaves the same state.  Stated for a positive frame length and
a well-formed state (`framerWf`: in DEOFFSET mode the recorded sync bit
offset does not exceed the write cursor), which holds for `framerInit`
and is re-established by every loop iteration. -/
theorem framer_chunk_split_invariant (syncWord syncLen frameLen : Nat)
    (hF : 0 < frameLen) (st : FState) (a b : List Nat) (hwf : framerWf st) :
    framerRun syncWord syncLen frameLen st (a ++ b)
      = ((framerRun syncWord syncLen frameLen st a).1
          ++ (framerRun syncWord syncLen frameLen
              (framerRun syncWord syncLen frameLen st a).2 b).1,
         (framerRun syncWord syncLen frameLen
          (framerRun syncWord syncLen frameLen st a).2 b).2) := by
  have hstep := @runLoop_append frameLen syncWord syncLen hF
    (2 * (a ++ b).length + 2) (2 * (a ++ b).length + 2)
    st a b hwf (by split_ifs <;> omega) (le_refl _)
  show runLoop syncWord syncLen frameLen (2 * (a ++ b).length + 2) st (a ++ b) = _
  rw [hstep]
  have h1eq : runLoop syncWord syncLen frameLen (2 * (a ++ b).length + 2) st a
      = runLoop syncWord syncLen frameLen (2 * a.length + 2) st a :=
    runLoop_fuel hF
      (2 * a.length + (if 8 * frameLen ≤ st.dataOffset then 1 else 0) + 1)
      (2 * (a ++ b).length + 2) (2 * a.length + 2) st a (le_refl _)
      (by rw [List.length_append]; split_ifs <;> omega)
      (by split_ifs <;> omega)
  rw [h1eq]
  have h2eq : runLoop syncWord syncLen frameLen (2 * (a ++ b).length + 2)
        (runLoop syncWord syncLen frameLen (2 * a.length + 2) st a).2 b
      = runLoop syncWord syncLen frameLen (2 * b.length + 2)
        (runLoop syncWord syncLen frameLen (2 * a.length + 2) st a).2 b :=
    runLoop_fuel hF
      (2 * b.length + (if 8 * frameLen ≤
        (runLoop syncWord syncLen frameLen (2 * a.length + 2) st a).2.dataOffset
        then 1 else 0) + 1)
      (2 * (a ++ b).length + 2) (2 * b.length + 2) _ b (le_refl _)
      (by rw [List.length_append]; split_ifs <;> omega)
      (by split_ifs <;> omega)
  rw [h2eq]
  rfl

theorem framer_chunk_split_invariant_witness :
    framerRun 0xA7 1 3 (framerInit 3) ([0xFF, 0x12] ++ [0x34, 0x56, 0x78])
      = ((framerRun 0xA7 1 3 (framerInit 3) [0xFF, 0x12]).1
          ++ (framerRun 0xA7 1 3
              (framerRun 0xA7 1 3 (framerInit 3) [0xFF, 0x12]).2 [0x34, 0x56, 0x78]).1,
         (framerRun 0xA7 1 3
          (framerRun 0xA7 1 3 (framerInit 3) [0xFF, 0x12]).2 [0x34, 0x56, 0x78]).2) :=
  framer_chunk_split_invariant 0xA7 1 3 (by decide) (framerInit 3)
    [0xFF, 0x12] [0x34, 0x56, 0x78] (fun h => nomatch h)
end Radiosonde
